import Mathlib

/-!
Verification of the semspec-ts documentation-graph core: shallow embedding of
the reference parser, segment scanners, validators, aggregator, navigation
filter and graph algorithms, with theorems settling the frozen claims.

JS strings are modelled as Lean `String` (a list of characters); JS string
indices are character indices.  JS `number` is modelled as `ℚ` where values
are fractional (boosts, weights, confidences) and as `Nat`/`ℚ` where the code
only adds and compares.  JS truthiness is modelled at each use site (`0`,
`""`, `undefined` and `null` are falsy; objects and arrays are truthy).
-/

/-! ### JS string primitives (character-list level)

`jsLastIndexOf`/`jsIndexOf` return `none` where JS returns `-1`;
`jsSubstring l a b` is `String.prototype.substring(a, b)` and
`l.drop a` is `substring(a)`. -/

def jsLastIndexOf (l : List Char) (c : Char) : Option Nat :=
  match l with
  | [] => none
  | a :: rest =>
    match jsLastIndexOf rest c with
    | some i => some (i + 1)
    | none => if a = c then some 0 else none

def jsIndexOf (l : List Char) (c : Char) : Option Nat :=
  match l with
  | [] => none
  | a :: rest => if a = c then some 0 else (jsIndexOf rest c).map (· + 1)

def jsSubstring (l : List Char) (start stop : Nat) : List Char :=
  (l.take stop).drop start

theorem jsLastIndexOf_eq_none (l : List Char) (c : Char) (h : c ∉ l) :
    jsLastIndexOf l c = none := by
  induction l with
  | nil => rfl
  | cons a rest ih =>
    simp only [List.mem_cons, not_or] at h
    simp [jsLastIndexOf, ih h.2, Ne.symm h.1]

theorem jsLastIndexOf_append_cons (l₁ l₂ : List Char) (c : Char) (h : c ∉ l₂) :
    jsLastIndexOf (l₁ ++ c :: l₂) c = some l₁.length := by
  induction l₁ with
  | nil => simp [jsLastIndexOf, jsLastIndexOf_eq_none l₂ c h]
  | cons a rest ih => simp [jsLastIndexOf, ih]

theorem jsIndexOf_append_cons (l₁ l₂ : List Char) (c : Char) (h : c ∉ l₁) :
    jsIndexOf (l₁ ++ c :: l₂) c = some l₁.length := by
  induction l₁ with
  | nil => simp [jsIndexOf]
  | cons a rest ih =>
    simp only [List.mem_cons, not_or] at h
    simp [jsIndexOf, Ne.symm h.1, ih h.2]

theorem String.mk_toList (s : String) : String.mk s.toList = s := rfl

/-! ### Reference parser (`references/parser.ts`) -/

structure SegmentRef where
  project : Option String
  documentId : Option String
  segmentId : String
deriving DecidableEq

/-- `parseSegmentRef` from `references/parser.ts`: fragment-only `#segment`,
`@project/page#segment` (split at the last `#`, then the first `/`), or
relative `page#segment`. -/
def parseSegmentRef (ref : String) : Option SegmentRef :=
  let l := ref.toList
  if l.head? = some '#' then
    some ⟨none, none, String.mk (l.drop 1)⟩
  else
    match jsLastIndexOf l '#' with
    | none => none
    | some hashIdx =>
      if hashIdx = l.length - 1 then none
      else
        let segmentId := String.mk (l.drop (hashIdx + 1))
        let resourcePath := l.take hashIdx
        if resourcePath.head? = some '@' then
          match jsIndexOf resourcePath '/' with
          | none => none
          | some slashIdx =>
            some ⟨some (String.mk (jsSubstring resourcePath 1 slashIdx)),
                  some (String.mk (resourcePath.drop (slashIdx + 1))),
                  segmentId⟩
        else
          some ⟨none, some (String.mk resourcePath), segmentId⟩

/-- `buildSegmentRef` from `references/parser.ts`: `@project/page#segment`. -/
def buildSegmentRef (project documentId segmentId : String) : String :=
  "@" ++ project ++ "/" ++ documentId ++ "#" ++ segmentId

theorem toList_append (a b : String) : (a ++ b).toList = a.toList ++ b.toList := rfl

theorem toList_ne_nil_of_ne_empty (s : String) (h : s ≠ "") : s.toList ≠ [] := by
  intro hnil
  exact h (by rw [← String.mk_toList s, hnil])

theorem mk_toList_id (l : List Char) : (String.mk l).toList = l := rfl

/-- C1 counterexample: the round-trip law fails as stated for all non-empty
components — it breaks when the segment id contains `#` (the parser splits at
the last `#`) or the project contains `/` (the parser splits at the first `/`). -/
theorem parseSegmentRef_roundtrip_counterexample :
    parseSegmentRef (buildSegmentRef "a" "b" "c#d") ≠
      some ⟨some "a", some "b", "c#d"⟩ ∧
    parseSegmentRef (buildSegmentRef "a/b" "c" "d") ≠
      some ⟨some "a/b", some "c", "d"⟩ := by
  constructor <;> decide

theorem parseSegRef_concat (P D S : List Char)
    (hP : '/' ∉ P) (hS : '#' ∉ S) (hS0 : S ≠ []) :
    parseSegmentRef (String.mk ((('@' :: P) ++ ('/' :: D)) ++ ('#' :: S))) =
      some ⟨some (String.mk P), some (String.mk D), String.mk S⟩ := by
  have hlast : jsLastIndexOf ((('@' :: P) ++ ('/' :: D)) ++ ('#' :: S)) '#' =
      some (('@' :: P) ++ ('/' :: D)).length :=
    jsLastIndexOf_append_cons (('@' :: P) ++ ('/' :: D)) S '#' hS
  have htake : ((('@' :: P) ++ ('/' :: D)) ++ ('#' :: S)).take
      (('@' :: P) ++ ('/' :: D)).length = ('@' :: P) ++ ('/' :: D) :=
    List.take_left _ _
  have hdropS : ((('@' :: P) ++ ('/' :: D)) ++ ('#' :: S)).drop
      ((('@' :: P) ++ ('/' :: D)).length + 1) = S := by
    have h2 : (('@' :: P) ++ ('/' :: D)) ++ ('#' :: S) =
        ((('@' :: P) ++ ('/' :: D)) ++ ['#']) ++ S := by simp
    rw [h2]
    exact List.drop_left' (by simp; try omega)
  have hslash : jsIndexOf (('@' :: P) ++ ('/' :: D)) '/' = some ('@' :: P).length := by
    refine jsIndexOf_append_cons ('@' :: P) D '/' ?_
    simp only [List.mem_cons, not_or]
    exact ⟨by decide, hP⟩
  have hproj : jsSubstring (('@' :: P) ++ ('/' :: D)) 1 ('@' :: P).length = P := by
    unfold jsSubstring
    rw [List.take_left]
    rfl
  have hdoc : (('@' :: P) ++ ('/' :: D)).drop (('@' :: P).length + 1) = D := by
    have h2 : ('@' :: P) ++ ('/' :: D) = (('@' :: P) ++ ['/']) ++ D := by simp
    rw [h2]
    exact List.drop_left' (by simp; try omega)
  have hS0' : 0 < S.length := List.length_pos.mpr hS0
  have hne : ¬((('@' :: P) ++ ('/' :: D)).length =
      ((('@' :: P) ++ ('/' :: D)) ++ ('#' :: S)).length - 1) := by
    simp only [List.length_append, List.length_cons]
    omega
  unfold parseSegmentRef
  simp only [mk_toList_id]
  rw [if_neg (show ¬(((('@' :: P) ++ ('/' :: D)) ++ ('#' :: S)).head? = some '#') by simp)]
  split
  · next heq =>
    rw [hlast] at heq
    simp at heq
  · next hashIdx heq =>
    rw [hlast] at heq
    injection heq with hh
    subst hh
    rw [if_neg hne, htake]
    rw [if_pos (show (('@' :: P) ++ ('/' :: D)).head? = some '@' by simp)]
    split
    · next heq2 =>
      rw [hslash] at heq2
      simp at heq2
    · next slashIdx heq2 =>
      rw [hslash] at heq2
      injection heq2 with hh2
      subst hh2
      rw [hproj, hdoc, hdropS]

/-- C1 (amended): for all non-empty component strings in which the project
contains no `/` and the segment id contains no `#`, parsing the built
reference recovers the components exactly (and is not null). -/
theorem parseSegmentRef_buildSegmentRef_roundtrip (p d s : String)
    (_hp : p ≠ "") (_hd : d ≠ "") (hs : s ≠ "")
    (hpSlash : '/' ∉ p.toList) (hsHash : '#' ∉ s.toList) :
    parseSegmentRef (buildSegmentRef p d s) = some ⟨some p, some d, s⟩ := by
  have hb : buildSegmentRef p d s =
      String.mk ('@' :: p.toList ++ '/' :: d.toList ++ '#' :: s.toList) := by
    have hdata : (buildSegmentRef p d s).toList =
        '@' :: p.toList ++ '/' :: d.toList ++ '#' :: s.toList := by
      simp [buildSegmentRef, toList_append]
    calc buildSegmentRef p d s = String.mk ((buildSegmentRef p d s).toList) :=
          (String.mk_toList _).symm
      _ = _ := by rw [hdata]
  rw [hb, parseSegRef_concat p.toList d.toList s.toList hpSlash hsHash
    (toList_ne_nil_of_ne_empty s hs)]
  simp [String.mk_toList]

/-- C1 witness: the amended round-trip at concrete components. -/
theorem parseSegmentRef_roundtrip_witness :
    ("docs" : String) ≠ "" ∧ ("api-guide" : String) ≠ "" ∧
    ("authentication" : String) ≠ "" ∧
    parseSegmentRef (buildSegmentRef "docs" "api-guide" "authentication") =
      some ⟨some "docs", some "api-guide", "authentication"⟩ :=
  ⟨by decide, by decide, by decide,
    parseSegmentRef_buildSegmentRef_roundtrip "docs" "api-guide" "authentication"
      (by decide) (by decide) (by decide) (by decide) (by decide)⟩

/-! ### Linkage (`src/linkage.ts`)

`Record<string, T>` is modelled as an association list with the record's
(unique) keys in insertion order; `linkage.m[k]` is `jsRecordGet m k`, `none`
where JS yields `undefined` (a present mapping object is always truthy). -/

def jsRecordGet {α : Type} (m : List (String × α)) (k : String) : Option α :=
  (m.find? (fun e => e.1 = k)).map (·.2)

inductive Relevance
  | primary | supporting | related
deriving DecidableEq

structure LinkSegment where
  id : String
  heading : String
  lines : ℚ × ℚ
deriving DecidableEq

structure Asset where
  path : String
  segments : Option (List LinkSegment)
  relevance : Relevance
  doc_type : String
deriving DecidableEq

structure CodeMapping where
  created_at : Option String
  updated_at : Option String
  assets : List Asset
deriving DecidableEq

structure CodeRef where
  path : String
  functions : List String
  lines : ℚ × ℚ
deriving DecidableEq

structure AssetMapping where
  code_refs : List CodeRef
deriving DecidableEq

structure Linkage where
  version : String
  created_at : Option String
  updated_at : Option String
  meta_source : Option String
  code_to_assets : List (String × CodeMapping)
  asset_to_code : List (String × AssetMapping)
deriving DecidableEq

/-- `validateBidirectionalConsistency` from `src/linkage.ts`: the first loop
pushes one error per asset of a `code_to_assets` mapping whose `path` is not a
key of `asset_to_code`; the second loop pushes one error per
`(codeRef.path, function)` pair of an `asset_to_code` mapping whose
`"path:function"` symbol is not a key of `code_to_assets`. -/
def validateBidirectionalConsistency (linkage : Linkage) : List String :=
  (linkage.code_to_assets.flatMap (fun entry =>
    entry.2.assets.flatMap (fun asset =>
      if jsRecordGet linkage.asset_to_code asset.path = none then
        ["Missing reverse mapping: " ++ asset.path ++ " not in asset_to_code"]
      else []))) ++
  (linkage.asset_to_code.flatMap (fun entry =>
    entry.2.code_refs.flatMap (fun codeRef =>
      codeRef.functions.flatMap (fun func =>
        if jsRecordGet linkage.code_to_assets (codeRef.path ++ ":" ++ func) = none then
          ["Missing forward mapping: " ++ (codeRef.path ++ ":" ++ func) ++
            " not in code_to_assets"]
        else []))))

/-- All assets referenced from `code_to_assets`, in traversal order. -/
def referencedAssets (l : Linkage) : List Asset :=
  l.code_to_assets.flatMap (fun e => e.2.assets)

/-- All `(path, function)` pairs reachable from `asset_to_code`, in traversal
order. -/
def reachablePairs (l : Linkage) : List (String × String) :=
  l.asset_to_code.flatMap (fun e =>
    e.2.code_refs.flatMap (fun cr => cr.functions.map (fun f => (cr.path, f))))

/-- Findings of the spec's words: one finding naming the asset path for every
referenced asset whose path is not a key of `asset_to_code`. -/
def missingReverseFindings (l : Linkage) : List String :=
  ((referencedAssets l).filter
      (fun a => jsRecordGet l.asset_to_code a.path = none)).map
    (fun a => "Missing reverse mapping: " ++ a.path ++ " not in asset_to_code")

/-- Findings of the spec's words: one finding naming the `"path:function"`
symbol for every reachable pair that is not a key of `code_to_assets`. -/
def missingForwardFindings (l : Linkage) : List String :=
  ((reachablePairs l).filter
      (fun pf => jsRecordGet l.code_to_assets (pf.1 ++ ":" ++ pf.2) = none)).map
    (fun pf => "Missing forward mapping: " ++ (pf.1 ++ ":" ++ pf.2) ++
      " not in code_to_assets")

theorem flatMap_if_singleton {α β : Type} (l : List α) (p : α → Prop)
    [DecidablePred p] (f : α → β) :
    (l.flatMap (fun a => if p a then [f a] else [])) =
      (l.filter (fun a => decide (p a))).map f := by
  induction l with
  | nil => rfl
  | cons a r ih =>
    by_cases h : p a <;> simp [List.flatMap_cons, h, ih]

/-- Example linkage with one `code_to_assets` entry whose asset has no reverse
mapping. -/
def linkageMissingReverse : Linkage :=
  { version := "1"
    created_at := none
    updated_at := none
    meta_source := none
    code_to_assets :=
      [("src/auth.ts:login",
        { created_at := none, updated_at := none
          assets := [{ path := "docs/auth.md", segments := none,
                       relevance := .primary, doc_type := "guide" }] })]
    asset_to_code := [] }

/-- `linkageMissingReverse` with the reverse entry added. -/
def linkageFixed : Linkage :=
  { linkageMissingReverse with
    asset_to_code :=
      [("docs/auth.md",
        { code_refs := [{ path := "src/auth.ts", functions := ["login"],
                          lines := (1, 10) }] })] }

theorem listFilterFlatMap {α β : Type} (l : List α) (g : α → List β) (p : β → Bool) :
    (l.flatMap g).filter p = l.flatMap (fun x => (g x).filter p) := by
  induction l with
  | nil => rfl
  | cons a r ih => simp [List.flatMap_cons, List.filter_append, ih]

theorem listMapFlatMap {α β γ : Type} (l : List α) (g : α → List β) (f : β → γ) :
    (l.flatMap g).map f = l.flatMap (fun x => (g x).map f) := by
  induction l with
  | nil => rfl
  | cons a r ih => simp [List.flatMap_cons, ih]

theorem flatMap_if_eq_filter_map {α β γ : Type} (l : List α) (g : α → γ)
    (p : γ → Prop) [DecidablePred p] (f : γ → β) :
    l.flatMap (fun a => if p (g a) then [f (g a)] else []) =
      ((l.map g).filter (fun x => decide (p x))).map f := by
  induction l with
  | nil => rfl
  | cons a r ih =>
    by_cases h : p (g a) <;> simp [List.flatMap_cons, h, ih]

/-- C8: bidirectional linkage checking enumerates all violations without
short-circuiting — the error list is exactly one finding naming the asset path
for every referenced asset missing from `asset_to_code`, followed by one
finding naming the `"path:function"` symbol for every reachable pair missing
from `code_to_assets`; a linkage with exactly one missing reverse entry yields
exactly that one finding, and adding the reverse entry empties the list. -/
theorem validateBidirectionalConsistency_spec :
    (∀ l : Linkage, validateBidirectionalConsistency l =
      missingReverseFindings l ++ missingForwardFindings l) ∧
    validateBidirectionalConsistency linkageMissingReverse =
      ["Missing reverse mapping: docs/auth.md not in asset_to_code"] ∧
    validateBidirectionalConsistency linkageFixed = [] := by
  refine ⟨fun l => ?_, by rfl, by rfl⟩
  unfold validateBidirectionalConsistency missingReverseFindings
    missingForwardFindings referencedAssets reachablePairs
  congr 1
  · rw [listFilterFlatMap, listMapFlatMap]
    refine congrArg _ (funext fun e => ?_)
    exact flatMap_if_singleton e.2.assets
      (fun a => jsRecordGet l.asset_to_code a.path = none)
      (fun a => "Missing reverse mapping: " ++ a.path ++ " not in asset_to_code")
  · rw [listFilterFlatMap, listMapFlatMap]
    refine congrArg _ (funext fun e => ?_)
    rw [listFilterFlatMap, listMapFlatMap]
    refine congrArg _ (funext fun cr => ?_)
    exact flatMap_if_eq_filter_map cr.functions (fun f => (cr.path, f))
      (fun pf => jsRecordGet l.code_to_assets (pf.1 ++ ":" ++ pf.2) = none)
      (fun pf => "Missing forward mapping: " ++ (pf.1 ++ ":" ++ pf.2) ++
        " not in code_to_assets")

/-! ### Concepts (`src/concepts.ts`)

`rel.from`/`rel.to` are modelled as `fromId`/`toId` (`from` is a Lean
keyword).  The unused `graph`/`metadata` envelope fields of `ConceptGraph`
are not modelled; `validateConcepts` and `buildConceptHierarchy` never read
them. -/

namespace Concepts

inductive CStatus
  | active | deprecated | proposed
deriving DecidableEq

inductive CSource
  | manual | discovered | imported
deriving DecidableEq

structure Concept where
  id : String
  key : String
  name : String
  description : Option String
  aliases : Option (List String)
  status : CStatus
  source : CSource
  confidence : Option ℚ
  tags : Option (List String)
deriving DecidableEq

inductive RelKind
  | parent | related | implements | documents | depends_on
deriving DecidableEq

structure ConceptRelationship where
  fromId : String
  toId : String
  kind : RelKind
  weight : ℚ
  description : Option String
  bidirectional : Option Bool
deriving DecidableEq

structure ConceptGraph where
  concepts : List Concept
  relationships : List ConceptRelationship
deriving DecidableEq

/-- `s.replace(/^concept:@/, '')`: strip one leading `concept:@` if present
(character-list level, `"concept:@"` is 9 characters). -/
def stripConceptAt (s : String) : String :=
  if "concept:@".toList.isPrefixOf s.toList then String.mk (s.toList.drop 9) else s

/-- The error strings one concept contributes to `validateConcepts`, given the
ids seen so far (JS pushes in this order; the duplicate check runs before the
id is added to the seen set). -/
def conceptBlock (seen : List String) (c : Concept) : List String :=
  (if c.id = "" then ["Concept ID is required"] else []) ++
  (if c.key = "" then ["Concept key is required"] else []) ++
  (if c.name = "" then ["Concept name is required"] else []) ++
  (if c.id ∈ seen then ["Duplicate concept ID: " ++ c.id] else []) ++
  (if c.source = CSource.discovered ∧ c.confidence = none then
    ["Discovered concept " ++ c.id ++ " must have confidence score"] else []) ++
  (if c.source = CSource.manual ∧ c.confidence ≠ none then
    ["Manual concept " ++ c.id ++ " should not have confidence score"] else []) ++
  (match c.confidence with
   | some q =>
     if q < 0 ∨ q > 1 then ["Invalid confidence for " ++ c.id ++ ": must be 0.0-1.0"]
     else []
   | none => [])

/-- The concept loop of `validateConcepts`, threading the `conceptIds` set. -/
def conceptLoop (seen : List String) : List Concept → List String
  | [] => []
  | c :: rest => conceptBlock seen c ++ conceptLoop (c.id :: seen) rest

/-- The error strings one relationship contributes, given the complete
`conceptIds` set. -/
def relBlock (conceptIds : List String) (r : ConceptRelationship) : List String :=
  (if stripConceptAt r.fromId ∈ conceptIds then []
   else ["Relationship references non-existent concept: " ++ r.fromId]) ++
  (if stripConceptAt r.toId ∈ conceptIds then []
   else ["Relationship references non-existent concept: " ++ r.toId]) ++
  (if r.weight < 0 ∨ r.weight > 1 then
    ["Invalid relationship weight: must be 0.0-1.0"] else []) ++
  (if r.fromId = r.toId then ["Self-referencing relationships not allowed"] else [])

/-- `validateConcepts` from `src/concepts.ts`: the concept loop (with its
running seen-set) followed by the relationship loop (against the complete id
set). -/
def validateConcepts (g : ConceptGraph) : List String :=
  conceptLoop [] g.concepts ++
    g.relationships.flatMap (relBlock (g.concepts.map (fun c => c.id)))

/-- The finding `validateConcepts` emits for a discovered concept with no
confidence. -/
def discoveredMsg (c : Concept) : String :=
  "Discovered concept " ++ c.id ++ " must have confidence score"

/-- The finding `validateConcepts` emits for a manual concept with a
confidence. -/
def manualMsg (c : Concept) : String :=
  "Manual concept " ++ c.id ++ " should not have confidence score"

end Concepts

theorem string_ne_of_take2 (s t : String) (h : s.toList.take 2 ≠ t.toList.take 2) :
    s ≠ t := fun he => h (by rw [he])

theorem take2_append (a x : String) (h : 2 ≤ a.toList.length) :
    (a ++ x).toList.take 2 = a.toList.take 2 := by
  rw [toList_append, List.take_append_eq_append_take]
  have h0 : 2 - a.toList.length = 0 := by omega
  rw [h0]
  simp

theorem take2_append2 (a x y : String) (h : 2 ≤ a.toList.length) :
    ((a ++ x) ++ y).toList.take 2 = a.toList.take 2 := by
  rw [take2_append (a ++ x) y (by rw [toList_append, List.length_append]; omega),
    take2_append a x h]

theorem count_if_singleton {α : Type} [DecidableEq α] {P : Prop} [Decidable P]
    (m M : α) :
    ((if P then [m] else []) : List α).count M = if P ∧ m = M then 1 else 0 := by
  by_cases h : P <;> by_cases h2 : m = M <;>
    simp [h, h2, List.count_cons, List.count_nil]

theorem count_if_nil_singleton {α : Type} [DecidableEq α] {P : Prop} [Decidable P]
    (m M : α) (h : m ≠ M) :
    ((if P then [] else [m]) : List α).count M = 0 := by
  split
  · rfl
  · simp [List.count_cons, h]

namespace Concepts

theorem count_discoveredMsg_conceptBlock (c x : Concept) (seen : List String) :
    (conceptBlock seen x).count (discoveredMsg c) =
      if x.source = CSource.discovered ∧ x.confidence = none ∧
          discoveredMsg x = discoveredMsg c then 1 else 0 := by
  have hne1 : ("Concept ID is required" : String) ≠ discoveredMsg c := by
    apply string_ne_of_take2
    rw [discoveredMsg, take2_append2 "Discovered concept " _ _ (by decide)]
    decide
  have hne2 : ("Concept key is required" : String) ≠ discoveredMsg c := by
    apply string_ne_of_take2
    rw [discoveredMsg, take2_append2 "Discovered concept " _ _ (by decide)]
    decide
  have hne3 : ("Concept name is required" : String) ≠ discoveredMsg c := by
    apply string_ne_of_take2
    rw [discoveredMsg, take2_append2 "Discovered concept " _ _ (by decide)]
    decide
  have hne4 : ("Duplicate concept ID: " ++ x.id) ≠ discoveredMsg c := by
    apply string_ne_of_take2
    rw [discoveredMsg, take2_append2 "Discovered concept " _ _ (by decide),
      take2_append "Duplicate concept ID: " _ (by decide)]
    decide
  have hne6 : ("Manual concept " ++ x.id ++ " should not have confidence score") ≠
      discoveredMsg c := by
    apply string_ne_of_take2
    rw [discoveredMsg, take2_append2 "Discovered concept " _ _ (by decide),
      take2_append2 "Manual concept " _ _ (by decide)]
    decide
  have hne7 : ("Invalid confidence for " ++ x.id ++ ": must be 0.0-1.0") ≠
      discoveredMsg c := by
    apply string_ne_of_take2
    rw [discoveredMsg, take2_append2 "Discovered concept " _ _ (by decide),
      take2_append2 "Invalid confidence for " _ _ (by decide)]
    decide
  unfold conceptBlock
  simp only [List.count_append, count_if_singleton, hne1, hne2, hne3, hne4, hne6,
    and_false, if_false]
  cases hconf : x.confidence with
  | some q =>
    rw [count_if_singleton]
    simp [hne7]
  | none => simp [discoveredMsg]

theorem count_discoveredMsg_conceptLoop (c : Concept) (cs : List Concept) :
    ∀ seen : List String,
    (conceptLoop seen cs).count (discoveredMsg c) =
      cs.countP (fun x => decide (x.source = CSource.discovered ∧
        x.confidence = none ∧ discoveredMsg x = discoveredMsg c)) := by
  induction cs with
  | nil => intro seen; rfl
  | cons a rest ih =>
    intro seen
    rw [conceptLoop, List.count_append, count_discoveredMsg_conceptBlock,
      List.countP_cons, ih]
    by_cases h : a.source = CSource.discovered ∧ a.confidence = none ∧
        discoveredMsg a = discoveredMsg c
    · simp [h]
      omega
    · simp [h]

theorem count_discoveredMsg_relBlock (c : Concept) (ids : List String)
    (r : ConceptRelationship) :
    (relBlock ids r).count (discoveredMsg c) = 0 := by
  have hne1 : ("Relationship references non-existent concept: " ++ r.fromId) ≠
      discoveredMsg c := by
    apply string_ne_of_take2
    rw [discoveredMsg, take2_append2 "Discovered concept " _ _ (by decide),
      take2_append "Relationship references non-existent concept: " _ (by decide)]
    decide
  have hne2 : ("Relationship references non-existent concept: " ++ r.toId) ≠
      discoveredMsg c := by
    apply string_ne_of_take2
    rw [discoveredMsg, take2_append2 "Discovered concept " _ _ (by decide),
      take2_append "Relationship references non-existent concept: " _ (by decide)]
    decide
  have hne3 : ("Invalid relationship weight: must be 0.0-1.0" : String) ≠
      discoveredMsg c := by
    apply string_ne_of_take2
    rw [discoveredMsg, take2_append2 "Discovered concept " _ _ (by decide)]
    decide
  have hne4 : ("Self-referencing relationships not allowed" : String) ≠
      discoveredMsg c := by
    apply string_ne_of_take2
    rw [discoveredMsg, take2_append2 "Discovered concept " _ _ (by decide)]
    decide
  unfold relBlock
  simp only [List.count_append, count_if_nil_singleton _ _ hne1,
    count_if_nil_singleton _ _ hne2, count_if_singleton, hne3, hne4,
    and_false, if_false]

end Concepts

namespace Concepts

theorem count_manualMsg_conceptBlock (c x : Concept) (seen : List String) :
    (conceptBlock seen x).count (manualMsg c) =
      if x.source = CSource.manual ∧ x.confidence ≠ none ∧
          manualMsg x = manualMsg c then 1 else 0 := by
  have hne1 : ("Concept ID is required" : String) ≠ manualMsg c := by
    apply string_ne_of_take2
    rw [manualMsg, take2_append2 "Manual concept " _ _ (by decide)]
    decide
  have hne2 : ("Concept key is required" : String) ≠ manualMsg c := by
    apply string_ne_of_take2
    rw [manualMsg, take2_append2 "Manual concept " _ _ (by decide)]
    decide
  have hne3 : ("Concept name is required" : String) ≠ manualMsg c := by
    apply string_ne_of_take2
    rw [manualMsg, take2_append2 "Manual concept " _ _ (by decide)]
    decide
  have hne4 : ("Duplicate concept ID: " ++ x.id) ≠ manualMsg c := by
    apply string_ne_of_take2
    rw [manualMsg, take2_append2 "Manual concept " _ _ (by decide),
      take2_append "Duplicate concept ID: " _ (by decide)]
    decide
  have hne5 : ("Discovered concept " ++ x.id ++ " must have confidence score") ≠
      manualMsg c := by
    apply string_ne_of_take2
    rw [manualMsg, take2_append2 "Manual concept " _ _ (by decide),
      take2_append2 "Discovered concept " _ _ (by decide)]
    decide
  have hne7 : ("Invalid confidence for " ++ x.id ++ ": must be 0.0-1.0") ≠
      manualMsg c := by
    apply string_ne_of_take2
    rw [manualMsg, take2_append2 "Manual concept " _ _ (by decide),
      take2_append2 "Invalid confidence for " _ _ (by decide)]
    decide
  unfold conceptBlock
  simp only [List.count_append, count_if_singleton, hne1, hne2, hne3, hne4, hne5,
    and_false, if_false]
  have hne7x : ("Invalid confidence for " ++ x.id ++ ": must be 0.0-1.0") ≠
      ("Manual concept " ++ c.id ++ " should not have confidence score") := by
    apply string_ne_of_take2
    rw [take2_append2 "Manual concept " _ _ (by decide),
      take2_append2 "Invalid confidence for " _ _ (by decide)]
    decide
  cases hconf : x.confidence with
  | some q =>
    rw [count_if_singleton]
    simp [manualMsg, hne7x]
  | none => simp [manualMsg]

theorem count_manualMsg_conceptLoop (c : Concept) (cs : List Concept) :
    ∀ seen : List String,
    (conceptLoop seen cs).count (manualMsg c) =
      cs.countP (fun x => decide (x.source = CSource.manual ∧
        x.confidence ≠ none ∧ manualMsg x = manualMsg c)) := by
  induction cs with
  | nil => intro seen; rfl
  | cons a rest ih =>
    intro seen
    rw [conceptLoop, List.count_append, count_manualMsg_conceptBlock,
      List.countP_cons, ih]
    by_cases h : a.source = CSource.manual ∧ a.confidence ≠ none ∧
        manualMsg a = manualMsg c
    · simp [h]
      omega
    · simp [h]

theorem count_manualMsg_relBlock (c : Concept) (ids : List String)
    (r : ConceptRelationship) :
    (relBlock ids r).count (manualMsg c) = 0 := by
  have hne1 : ("Relationship references non-existent concept: " ++ r.fromId) ≠
      manualMsg c := by
    apply string_ne_of_take2
    rw [manualMsg, take2_append2 "Manual concept " _ _ (by decide),
      take2_append "Relationship references non-existent concept: " _ (by decide)]
    decide
  have hne2 : ("Relationship references non-existent concept: " ++ r.toId) ≠
      manualMsg c := by
    apply string_ne_of_take2
    rw [manualMsg, take2_append2 "Manual concept " _ _ (by decide),
      take2_append "Relationship references non-existent concept: " _ (by decide)]
    decide
  have hne3 : ("Invalid relationship weight: must be 0.0-1.0" : String) ≠
      manualMsg c := by
    apply string_ne_of_take2
    rw [manualMsg, take2_append2 "Manual concept " _ _ (by decide)]
    decide
  have hne4 : ("Self-referencing relationships not allowed" : String) ≠
      manualMsg c := by
    apply string_ne_of_take2
    rw [manualMsg, take2_append2 "Manual concept " _ _ (by decide)]
    decide
  unfold relBlock
  simp only [List.count_append, count_if_nil_singleton _ _ hne1,
    count_if_nil_singleton _ _ hne2, count_if_singleton, hne3, hne4,
    and_false, if_false]

theorem count_discoveredMsg_relLoop (c : Concept) (ids : List String)
    (rels : List ConceptRelationship) :
    (rels.flatMap (relBlock ids)).count (discoveredMsg c) = 0 := by
  induction rels with
  | nil => rfl
  | cons r rest ih =>
    rw [List.flatMap_cons, List.count_append, count_discoveredMsg_relBlock, ih]

theorem count_manualMsg_relLoop (c : Concept) (ids : List String)
    (rels : List ConceptRelationship) :
    (rels.flatMap (relBlock ids)).count (manualMsg c) = 0 := by
  induction rels with
  | nil => rfl
  | cons r rest ih =>
    rw [List.flatMap_cons, List.count_append, count_manualMsg_relBlock, ih]

/-- C7: a discovered concept with no confidence yields exactly one finding
(its `must have confidence score` message), and a manual concept with a
confidence in [0,1] yields exactly one finding (its `should not have
confidence score` message) — each referencing the concept's id. -/
theorem validateConcepts_confidence_pairing :
    (∀ (g : ConceptGraph) (c : Concept), c ∈ g.concepts →
      c.source = CSource.discovered → c.confidence = none →
      g.concepts.countP (fun x => decide (x.source = CSource.discovered ∧
        x.confidence = none)) = 1 →
      (validateConcepts g).count (discoveredMsg c) = 1) ∧
    (∀ (g : ConceptGraph) (c : Concept) (q : ℚ), c ∈ g.concepts →
      c.source = CSource.manual → c.confidence = some q → 0 ≤ q → q ≤ 1 →
      g.concepts.countP (fun x => decide (x.source = CSource.manual ∧
        x.confidence ≠ none)) = 1 →
      (validateConcepts g).count (manualMsg c) = 1) := by
  constructor
  · intro g c hmem hsrc hconf hcount
    unfold validateConcepts
    rw [List.count_append, count_discoveredMsg_conceptLoop,
      count_discoveredMsg_relLoop]
    have hle : g.concepts.countP (fun x => decide (x.source = CSource.discovered ∧
        x.confidence = none ∧ discoveredMsg x = discoveredMsg c)) ≤
        g.concepts.countP (fun x => decide (x.source = CSource.discovered ∧
          x.confidence = none)) := by
      refine List.countP_mono_left ?_
      intro a _ ha
      simp only [decide_eq_true_eq] at ha ⊢
      exact ⟨ha.1, ha.2.1⟩
    have hge : 0 < g.concepts.countP (fun x => decide (x.source = CSource.discovered ∧
        x.confidence = none ∧ discoveredMsg x = discoveredMsg c)) := by
      refine List.countP_pos_iff.mpr ⟨c, hmem, ?_⟩
      simp [hsrc, hconf]
    omega
  · intro g c q hmem hsrc hconf _ _ hcount
    unfold validateConcepts
    rw [List.count_append, count_manualMsg_conceptLoop, count_manualMsg_relLoop]
    have hle : g.concepts.countP (fun x => decide (x.source = CSource.manual ∧
        x.confidence ≠ none ∧ manualMsg x = manualMsg c)) ≤
        g.concepts.countP (fun x => decide (x.source = CSource.manual ∧
          x.confidence ≠ none)) := by
      refine List.countP_mono_left ?_
      intro a _ ha
      simp only [decide_eq_true_eq] at ha ⊢
      exact ⟨ha.1, ha.2.1⟩
    have hge : 0 < g.concepts.countP (fun x => decide (x.source = CSource.manual ∧
        x.confidence ≠ none ∧ manualMsg x = manualMsg c)) := by
      refine List.countP_pos_iff.mpr ⟨c, hmem, ?_⟩
      simp [hsrc, hconf]
    omega

end Concepts

namespace Concepts

/-- A discovered concept with no confidence score. -/
def cptDiscovered : Concept :=
  { id := "cpt_discovered", key := "discovered", name := "Discovered",
    description := none, aliases := none, status := .active,
    source := .discovered, confidence := none, tags := none }

/-- A manual concept with a confidence score inside [0,1]. -/
def cptManual : Concept :=
  { id := "cpt_manual", key := "manual", name := "Manual",
    description := none, aliases := none, status := .active,
    source := .manual, confidence := some (4/5), tags := none }

/-- A graph holding exactly one discovered-without-confidence concept and one
manual-with-confidence concept. -/
def confidenceWitnessGraph : ConceptGraph :=
  { concepts := [cptDiscovered, cptManual], relationships := [] }

/-- C7 witness: both halves of the pairing theorem at the concrete graph. -/
theorem validateConcepts_confidence_pairing_witness :
    cptDiscovered ∈ confidenceWitnessGraph.concepts ∧
    cptManual ∈ confidenceWitnessGraph.concepts ∧
    (validateConcepts confidenceWitnessGraph).count (discoveredMsg cptDiscovered) = 1 ∧
    (validateConcepts confidenceWitnessGraph).count (manualMsg cptManual) = 1 :=
  ⟨List.Mem.head _, List.Mem.tail _ (List.Mem.head _),
    validateConcepts_confidence_pairing.1 confidenceWitnessGraph cptDiscovered
      (List.Mem.head _) rfl rfl (by decide),
    validateConcepts_confidence_pairing.2 confidenceWitnessGraph cptManual (4/5)
      (List.Mem.tail _ (List.Mem.head _)) rfl rfl (by norm_num) (by norm_num)
      (by decide)⟩

end Concepts

namespace Concepts

/-- Result tree of `buildConceptHierarchy`: `{concept, children}`. -/
inductive ConceptTree where
  | node (concept : Concept) (children : List ConceptTree)

mutual
/-- `buildConceptHierarchy` from `src/concepts.ts`, with an explicit `fuel`
bound on the recursion depth (the JS call stack): `none` means the recursion
did not finish within `fuel` nested calls (for every fuel — it never finishes
at all); `some none` is the JS `null` result for a missing root key, and
`some (some t)` the JS `{concept, children}` object. -/
def buildConceptHierarchyFuel : Nat → ConceptGraph → String → Option (Option ConceptTree)
  | 0, _, _ => none
  | fuel+1, graph, rootKey =>
    match graph.concepts.find? (fun c => c.key = rootKey) with
    | none => some none
    | some root =>
      match buildChildren fuel graph
          (graph.relationships.filter (fun r =>
            r.toId = "concept:@" ++ root.id ∧ r.kind = RelKind.parent)) with
      | none => none
      | some kids => some (some (ConceptTree.node root kids))
termination_by fuel _ _ => (fuel, 0)

/-- The `.map(...).filter(Boolean)` over the parent relationships: looks the
`from` id up, recurses on the child's key, and drops JS-`null` entries. -/
def buildChildren : Nat → ConceptGraph → List ConceptRelationship → Option (List ConceptTree)
  | _, _, [] => some []
  | fuel, graph, r :: rest =>
    match graph.concepts.find? (fun c => c.id = stripConceptAt r.fromId) with
    | none => buildChildren fuel graph rest
    | some child =>
      match buildConceptHierarchyFuel fuel graph child.key with
      | none => none
      | some none => buildChildren fuel graph rest
      | some (some t) =>
        match buildChildren fuel graph rest with
        | none => none
        | some ts => some (t :: ts)
termination_by fuel _ rels => (fuel, rels.length + 1)
end

end Concepts

namespace Concepts

/-- Concept `A` (key `kA`). -/
def cyclicA : Concept :=
  { id := "A", key := "kA", name := "A", description := none, aliases := none,
    status := .active, source := .manual, confidence := none, tags := none }

/-- Concept `B` (key `kB`). -/
def cyclicB : Concept :=
  { id := "B", key := "kB", name := "B", description := none, aliases := none,
    status := .active, source := .manual, confidence := none, tags := none }

/-- B is a child of A, and A is a child of B: a two-cycle of `parent`
relationships. -/
def cyclicGraph : ConceptGraph :=
  { concepts := [cyclicA, cyclicB],
    relationships :=
      [ { fromId := "concept:@B", toId := "concept:@A", kind := .parent,
          weight := 1, description := none, bidirectional := none },
        { fromId := "concept:@A", toId := "concept:@B", kind := .parent,
          weight := 1, description := none, bidirectional := none } ] }

theorem buildConceptHierarchyFuel_cycle_step :
    ∀ n : Nat,
      (buildConceptHierarchyFuel n cyclicGraph "kB" = none →
        buildConceptHierarchyFuel (n+1) cyclicGraph "kA" = none) ∧
      (buildConceptHierarchyFuel n cyclicGraph "kA" = none →
        buildConceptHierarchyFuel (n+1) cyclicGraph "kB" = none) := by
  intro n
  constructor
  · intro h
    rw [buildConceptHierarchyFuel]
    rw [show cyclicGraph.concepts.find? (fun c => c.key = "kA") = some cyclicA from rfl]
    split
    · next heq => exact absurd heq (by simp)
    · next root heq =>
      injection heq with heq2
      subst heq2
      rw [show cyclicGraph.relationships.filter (fun r =>
        decide (r.toId = "concept:@" ++ cyclicA.id ∧ r.kind = RelKind.parent)) =
        [{ fromId := "concept:@B", toId := "concept:@A", kind := .parent,
           weight := 1, description := none, bidirectional := none }] from by decide]
      have hbc : buildChildren n cyclicGraph
          [{ fromId := "concept:@B", toId := "concept:@A", kind := .parent,
             weight := 1, description := none, bidirectional := none }] = none := by
        rw [buildChildren]
        rw [show cyclicGraph.concepts.find?
          (fun c => c.id = stripConceptAt "concept:@B") = some cyclicB from by decide]
        split
        · next heq3 => exact absurd heq3 (by simp)
        · next child heq3 =>
          injection heq3 with heq4
          subst heq4
          rw [show cyclicB.key = "kB" from rfl, h]
      rw [hbc]
  · intro h
    rw [buildConceptHierarchyFuel]
    rw [show cyclicGraph.concepts.find? (fun c => c.key = "kB") = some cyclicB from rfl]
    split
    · next heq => exact absurd heq (by simp)
    · next root heq =>
      injection heq with heq2
      subst heq2
      rw [show cyclicGraph.relationships.filter (fun r =>
        decide (r.toId = "concept:@" ++ cyclicB.id ∧ r.kind = RelKind.parent)) =
        [{ fromId := "concept:@A", toId := "concept:@B", kind := .parent,
           weight := 1, description := none, bidirectional := none }] from by decide]
      have hbc : buildChildren n cyclicGraph
          [{ fromId := "concept:@A", toId := "concept:@B", kind := .parent,
             weight := 1, description := none, bidirectional := none }] = none := by
        rw [buildChildren]
        rw [show cyclicGraph.concepts.find?
          (fun c => c.id = stripConceptAt "concept:@A") = some cyclicA from by decide]
        split
        · next heq3 => exact absurd heq3 (by simp)
        · next child heq3 =>
          injection heq3 with heq4
          subst heq4
          rw [show cyclicA.key = "kA" from rfl, h]
      rw [hbc]

/-- C10: on the two-cycle of `parent` relationships — a graph that
`validateConcepts` accepts without findings — `buildConceptHierarchy` never
returns within any recursion depth: the recursion `kA → kB → kA → …` consumes
every finite fuel, i.e. the JS function recurses forever instead of returning
a value. -/
theorem buildConceptHierarchy_cycle_diverges :
    validateConcepts cyclicGraph = [] ∧
    ∀ fuel : Nat,
      buildConceptHierarchyFuel fuel cyclicGraph "kA" = none ∧
      buildConceptHierarchyFuel fuel cyclicGraph "kB" = none := by
  constructor
  · decide
  · intro fuel
    induction fuel with
    | zero => constructor <;> rw [buildConceptHierarchyFuel]
    | succ n ih =>
      exact ⟨(buildConceptHierarchyFuel_cycle_step n).1 ih.2,
             (buildConceptHierarchyFuel_cycle_step n).2 ih.1⟩

end Concepts

/-! ### Aggregator (`aggregation.ts`, module of `aggregatePageMetadata`)

JS numbers are `ℚ`.  `string | string[]` fields are `StrOrList`.  The
`semantics` records are association lists over their present, array-valued
keys.  The sha256 digest over `segmentChecksums.join('|')` is an injected
function (`hash`), as the spec treats checksum primitives as external.  The
unused `metadata` envelope field is not modelled. -/

namespace Aggregator

inductive StrOrList
  | str (s : String)
  | list (l : List String)
deriving DecidableEq

structure TokenConfig where
  max_tokens : Option ℚ
  min_tokens : Option ℚ
deriving DecidableEq

structure GenerateConfig where
  max_tokens : Option ℚ
  min_tokens : Option ℚ
  model : Option String
  temperature : Option ℚ
  context : Option String
deriving DecidableEq

/-- `AnnotatedSegment`; the `return` field is modelled as `ret` (`return` is a
Lean keyword). -/
structure AnnotatedSegment where
  id : String
  type : Option String
  audience_role : Option StrOrList
  concepts : Option StrOrList
  boost : Option ℚ
  semantics : Option (List (String × List String))
  byte_range : Option (ℚ × ℚ)
  line_range : Option (ℚ × ℚ)
  heading : Option String
  segment_checksum : Option String
  segment_ref : Option String
  can_edit : Option Bool
  ret : Option TokenConfig
  generate : Option GenerateConfig
deriving DecidableEq

structure ExternalAnnotations where
  version : String
  source_file : String
  source_checksum : Option String
  semantics : Option (List (String × List String))
  segments : List AnnotatedSegment
deriving DecidableEq

/-- JS `if (x)` for an optional number: truthy iff present and nonzero. -/
def qTruthy : Option ℚ → Bool
  | some q => q ≠ 0
  | none => false

/-- JS `x || d` for an optional number. -/
def jsOrQ (o : Option ℚ) (d : ℚ) : ℚ :=
  match o with
  | some q => if q = 0 then d else q
  | none => d

/-- JS truthiness of a `string | string[] | undefined` value: `""` is falsy,
any array is truthy. -/
def strOrListTruthy : Option StrOrList → Bool
  | none => false
  | some (.str s) => s ≠ ""
  | some (.list _) => true

/-- `Array.isArray(x) ? x : [x]`. -/
def strOrListElems : StrOrList → List String
  | .str s => [s]
  | .list l => l

/-- JS `Set.add` (insertion order preserved, duplicates ignored). -/
def setAdd (l : List String) (x : String) : List String :=
  if x ∈ l then l else l ++ [x]

def setAddAll (l : List String) (xs : List String) : List String :=
  xs.foldl setAdd l

/-- One `values.forEach(v => semantics[key].add(v))` step: update the fixed
semantics table at `k` if the key exists there. -/
def semUpdate (tbl : List (String × List String)) (k : String)
    (vs : List String) : List (String × List String) :=
  tbl.map (fun e => if e.1 = k then (e.1, setAddAll e.2 vs) else e)

def semUpdateAll (tbl : List (String × List String))
    (entries : List (String × List String)) : List (String × List String) :=
  entries.foldl (fun t e => semUpdate t e.1 e.2) tbl

/-- The eight segment-semantics keys the page aggregator initializes. -/
def pageSemKeys : List (String × List String) :=
  [("tasks", []), ("problems", []), ("solutions", []), ("outcomes", []),
   ("validations", []), ("next_steps", []), ("impacts", []), ("features", [])]

structure TokenBudget where
  total_return_max : ℚ
  total_return_min : ℚ
  total_generate_max : Option ℚ
  total_generate_min : Option ℚ
deriving DecidableEq

structure PageAggregation where
  concepts : List String
  audience_role : List String
  semantics : List (String × List String)
  token_budget : TokenBudget
  average_boost : ℚ
  segment_count : Nat
  segment_checksums : List String
  page_checksum : String
deriving DecidableEq

/-- The mutable locals of `aggregatePageMetadata`'s segment loop. -/
structure AggState where
  concepts : List String
  audienceRoles : List String
  semantics : List (String × List String)
  totalReturnMax : ℚ
  totalReturnMin : ℚ
  totalGenerateMax : ℚ
  totalGenerateMin : ℚ
  weightedBoostSum : ℚ
  totalTokens : ℚ
  segmentChecksums : List String

/-- One iteration of `for (const segment of annotations.segments)`. -/
def aggStep (st : AggState) (seg : AnnotatedSegment) : AggState :=
  let concepts :=
    if strOrListTruthy seg.concepts then
      setAddAll st.concepts (strOrListElems (seg.concepts.getD (.list [])))
    else st.concepts
  let audienceRoles :=
    if strOrListTruthy seg.audience_role then
      setAddAll st.audienceRoles (strOrListElems (seg.audience_role.getD (.list [])))
    else st.audienceRoles
  let semantics :=
    match seg.semantics with
    | some entries => semUpdateAll st.semantics entries
    | none => st.semantics
  let retMax := seg.ret.bind TokenConfig.max_tokens
  let retMin := seg.ret.bind TokenConfig.min_tokens
  let genMax := seg.generate.bind GenerateConfig.max_tokens
  let genMin := seg.generate.bind GenerateConfig.min_tokens
  let totalReturnMax :=
    if qTruthy retMax then st.totalReturnMax + retMax.getD 0 else st.totalReturnMax
  let totalTokens :=
    if qTruthy retMax then st.totalTokens + retMax.getD 0 else st.totalTokens
  let totalReturnMin :=
    if qTruthy retMin then st.totalReturnMin + retMin.getD 0 else st.totalReturnMin
  let totalGenerateMax :=
    if qTruthy genMax then st.totalGenerateMax + genMax.getD 0 else st.totalGenerateMax
  let totalGenerateMin :=
    if qTruthy genMin then st.totalGenerateMin + genMin.getD 0 else st.totalGenerateMin
  let segmentTokens := jsOrQ retMax 0
  let boost := jsOrQ seg.boost 1
  let weightedBoostSum := st.weightedBoostSum + boost * segmentTokens
  let segmentChecksums :=
    match seg.segment_checksum with
    | some s => if s ≠ "" then st.segmentChecksums ++ [s] else st.segmentChecksums
    | none => st.segmentChecksums
  { concepts := concepts, audienceRoles := audienceRoles, semantics := semantics,
    totalReturnMax := totalReturnMax, totalReturnMin := totalReturnMin,
    totalGenerateMax := totalGenerateMax, totalGenerateMin := totalGenerateMin,
    weightedBoostSum := weightedBoostSum, totalTokens := totalTokens,
    segmentChecksums := segmentChecksums }

/-- `aggregatePageMetadata` from the aggregation module.  `hash` is the
injected `sha256(segmentChecksums.join('|'))` digest. -/
def aggregatePageMetadata (hash : List String → String)
    (annotations : ExternalAnnotations) : PageAggregation :=
  let sem0 :=
    match annotations.semantics with
    | some entries => semUpdateAll pageSemKeys entries
    | none => pageSemKeys
  let st0 : AggState :=
    { concepts := [], audienceRoles := [], semantics := sem0,
      totalReturnMax := 0, totalReturnMin := 0, totalGenerateMax := 0,
      totalGenerateMin := 0, weightedBoostSum := 0, totalTokens := 0,
      segmentChecksums := [] }
  let st := annotations.segments.foldl aggStep st0
  { concepts := st.concepts
    audience_role := st.audienceRoles
    semantics := st.semantics.filter (fun e => e.2 ≠ [])
    token_budget :=
      { total_return_max := st.totalReturnMax
        total_return_min := st.totalReturnMin
        total_generate_max :=
          if st.totalGenerateMax = 0 then none else some st.totalGenerateMax
        total_generate_min :=
          if st.totalGenerateMin = 0 then none else some st.totalGenerateMin }
    average_boost :=
      if st.totalTokens > 0 then st.weightedBoostSum / st.totalTokens else 1
    segment_count := annotations.segments.length
    segment_checksums := st.segmentChecksums
    page_checksum :=
      if st.segmentChecksums.length > 0 then "sha256:" ++ hash st.segmentChecksums
      else "" }

/-- A segment's retrieval token budget as the spec's formula reads it:
`return.max_tokens`, 0 when absent. -/
def retTokens (seg : AnnotatedSegment) : ℚ :=
  (seg.ret.bind TokenConfig.max_tokens).getD 0

/-- A segment's boost as the spec's formula reads it: the declared boost,
1.0 when none is declared. -/
def boostOf (seg : AnnotatedSegment) : ℚ :=
  seg.boost.getD 1

end Aggregator

namespace Aggregator

theorem aggStep_totalTokens (st : AggState) (seg : AnnotatedSegment) :
    (aggStep st seg).totalTokens = st.totalTokens + retTokens seg := by
  unfold aggStep retTokens qTruthy
  cases h : seg.ret.bind TokenConfig.max_tokens with
  | none => simp
  | some q => by_cases hq : q = 0 <;> simp [hq]

theorem aggStep_weightedBoostSum (st : AggState) (seg : AnnotatedSegment)
    (h2 : seg.boost ≠ some 0) :
    (aggStep st seg).weightedBoostSum =
      st.weightedBoostSum + boostOf seg * retTokens seg := by
  unfold aggStep boostOf retTokens jsOrQ
  cases hb : seg.boost with
  | none =>
    cases hr : seg.ret.bind TokenConfig.max_tokens with
    | none => simp
    | some q => by_cases hq : q = 0 <;> simp [hq]
  | some b =>
    rw [hb] at h2
    have hbne : b ≠ 0 := fun h => h2 (by rw [h])
    cases hr : seg.ret.bind TokenConfig.max_tokens with
    | none => simp [hbne]
    | some q => by_cases hq : q = 0 <;> simp [hq, hbne]

theorem foldl_aggStep_totals (segs : List AnnotatedSegment) :
    ∀ st : AggState, (∀ s ∈ segs, s.boost ≠ some 0) →
    (segs.foldl aggStep st).totalTokens =
      st.totalTokens + (segs.map retTokens).sum ∧
    (segs.foldl aggStep st).weightedBoostSum =
      st.weightedBoostSum + (segs.map (fun s => boostOf s * retTokens s)).sum := by
  induction segs with
  | nil => intro st _; simp
  | cons a rest ih =>
    intro st h2
    rw [List.foldl_cons]
    obtain ⟨ht, hw⟩ := ih (aggStep st a)
      (fun s hs => h2 s (List.mem_cons_of_mem _ hs))
    refine ⟨?_, ?_⟩
    · rw [ht, aggStep_totalTokens]
      simp only [List.map_cons, List.sum_cons]
      ring
    · rw [hw, aggStep_weightedBoostSum st a (h2 a (List.mem_cons_self _ _))]
      simp only [List.map_cons, List.sum_cons]
      ring

/-- The initial loop state of `aggregatePageMetadata`. -/
def initState (a : ExternalAnnotations) : AggState :=
  { concepts := [], audienceRoles := [],
    semantics :=
      match a.semantics with
      | some entries => semUpdateAll pageSemKeys entries
      | none => pageSemKeys,
    totalReturnMax := 0, totalReturnMin := 0, totalGenerateMax := 0,
    totalGenerateMin := 0, weightedBoostSum := 0, totalTokens := 0,
    segmentChecksums := [] }

theorem initState_totalTokens (a : ExternalAnnotations) :
    (initState a).totalTokens = 0 := rfl

theorem initState_weightedBoostSum (a : ExternalAnnotations) :
    (initState a).weightedBoostSum = 0 := rfl

theorem average_boost_def (hash : List String → String) (a : ExternalAnnotations) :
    (aggregatePageMetadata hash a).average_boost =
      (if (a.segments.foldl aggStep (initState a)).totalTokens > 0
       then (a.segments.foldl aggStep (initState a)).weightedBoostSum /
         (a.segments.foldl aggStep (initState a)).totalTokens
       else 1) := rfl

/-- C5: `average_boost` is the token-weighted average
`Σ(boost_i × retrievalTokens_i) / Σ(retrievalTokens_i)` over the page's
segments, with an undeclared boost contributing 1.0, and exactly 1.0 when the
total retrieval tokens are zero.  (Hypotheses: token budgets are non-negative,
and no segment declares a literal boost of 0 — JS `||` would coerce such a
boost to 1.0.) -/
theorem aggregatePageMetadata_average_boost (hash : List String → String)
    (a : ExternalAnnotations)
    (h1 : ∀ s ∈ a.segments, 0 ≤ retTokens s)
    (h2 : ∀ s ∈ a.segments, s.boost ≠ some 0) :
    ((a.segments.map retTokens).sum = 0 →
      (aggregatePageMetadata hash a).average_boost = 1) ∧
    ((a.segments.map retTokens).sum ≠ 0 →
      (aggregatePageMetadata hash a).average_boost =
        (a.segments.map (fun s => boostOf s * retTokens s)).sum /
          (a.segments.map retTokens).sum) := by
  obtain ⟨ht, hw⟩ := foldl_aggStep_totals a.segments (initState a) h2
  have hT : (a.segments.foldl aggStep (initState a)).totalTokens =
      (a.segments.map retTokens).sum := by
    rw [ht, initState_totalTokens, zero_add]
  have hW : (a.segments.foldl aggStep (initState a)).weightedBoostSum =
      (a.segments.map (fun s => boostOf s * retTokens s)).sum := by
    rw [hw, initState_weightedBoostSum, zero_add]
  constructor
  · intro hden
    rw [average_boost_def, hT, hden]
    norm_num
  · intro hden
    have hnonneg : 0 ≤ (a.segments.map retTokens).sum := by
      refine List.sum_nonneg ?_
      intro x hx
      obtain ⟨s, hs, rfl⟩ := List.mem_map.mp hx
      exact h1 s hs
    have hpos : 0 < (a.segments.map retTokens).sum :=
      lt_of_le_of_ne hnonneg (Ne.symm hden)
    rw [average_boost_def, hT, hW, if_pos hpos]

end Aggregator

namespace Aggregator

/-- Segment with retrieval budget 800 and boost 1.2. -/
def seg800 : AnnotatedSegment :=
  { id := "s1", type := none, audience_role := none, concepts := none,
    boost := some (6/5), semantics := none, byte_range := none,
    line_range := none, heading := none, segment_checksum := none,
    segment_ref := none, can_edit := none,
    ret := some { max_tokens := some 800, min_tokens := none },
    generate := none }

/-- Segment with retrieval budget 200 and boost 1.0. -/
def seg200 : AnnotatedSegment :=
  { id := "s2", type := none, audience_role := none, concepts := none,
    boost := some 1, semantics := none, byte_range := none,
    line_range := none, heading := none, segment_checksum := none,
    segment_ref := none, can_edit := none,
    ret := some { max_tokens := some 200, min_tokens := none },
    generate := none }

/-- The claim's example page: budgets 800 and 200 with boosts 1.2 and 1.0. -/
def boostAnnotations : ExternalAnnotations :=
  { version := "1", source_file := "doc.md", source_checksum := none,
    semantics := none, segments := [seg800, seg200] }

/-- C5 witness: the weighted average at the claim's example is
`(1.2×800 + 1.0×200)/1000 = 1.16 = 29/25`. -/
theorem aggregatePageMetadata_average_boost_witness :
    (∀ s ∈ boostAnnotations.segments, 0 ≤ retTokens s) ∧
    (∀ s ∈ boostAnnotations.segments, s.boost ≠ some 0) ∧
    (aggregatePageMetadata (fun _ => "") boostAnnotations).average_boost =
      29/25 := by
  have h1 : ∀ s ∈ boostAnnotations.segments, 0 ≤ retTokens s := by
    intro s hs
    fin_cases hs <;> norm_num [retTokens, seg800, seg200]
  have h2 : ∀ s ∈ boostAnnotations.segments, s.boost ≠ some 0 := by
    intro s hs
    fin_cases hs <;> simp [seg800, seg200]
  have hden : (boostAnnotations.segments.map retTokens).sum ≠ 0 := by
    norm_num [boostAnnotations, retTokens, seg800, seg200]
  refine ⟨h1, h2, ?_⟩
  rw [(aggregatePageMetadata_average_boost (fun _ => "") boostAnnotations h1 h2).2 hden]
  norm_num [boostAnnotations, retTokens, boostOf, seg800, seg200]

end Aggregator

/-! ### Navigation (`primitives/navigation`)

`filterByVersion` and its helper.  Of an item's open `metadata` record the
code reads only `metadata?.versions`, modelled as `metadataVersions`.  JS `||`
on the versions arrays: any array (also an empty one) is truthy, `undefined`
is falsy. -/

namespace Navigation

structure NavItem where
  id : String
  title : String
  link : Option String
  children : Option (List NavItem)
  noLink : Option Bool
  icon : Option String
  badge : Option String
  order : Option ℚ
  metadataVersions : Option (List String)

structure NavTree where
  id : String
  label : Option String
  items : List NavItem
  versions : Option (List String)
  dflt : Option Bool

/-- JS `a || b` over two optional arrays. -/
def jsOrOpt {α : Type} (a b : Option α) : Option α :=
  match a with
  | some x => some x
  | none => b

/-- `!itemVersions || itemVersions.includes(version)` with
`itemVersions = item.metadata?.versions || tree.versions`. -/
def keepItem (treeVersions : Option (List String)) (version : String)
    (item : NavItem) : Bool :=
  match jsOrOpt item.metadataVersions treeVersions with
  | none => true
  | some vs => vs.contains version

mutual
/-- The `filterItems` closure of `filterByVersion`:
`items.filter(...).map(item => ({...item, children: ...}))`. -/
def filterItems (treeVersions : Option (List String)) (version : String)
    (items : List NavItem) : List NavItem :=
  (items.filter (keepItem treeVersions version)).attach.map
    (fun x => filterItemMap treeVersions version x.1)
termination_by sizeOf items
decreasing_by
  have h2 : sizeOf x.1 < sizeOf items :=
    List.sizeOf_lt_of_mem (List.mem_of_mem_filter x.2)
  omega

/-- The mapped function: spread the item, with
`children: item.children ? filterItems(item.children) : undefined`. -/
def filterItemMap (treeVersions : Option (List String)) (version : String)
    (item : NavItem) : NavItem :=
  { item with children :=
      match _hc : item.children with
      | some l => some (filterItems treeVersions version l)
      | none => none }
termination_by sizeOf item
decreasing_by
  have h3 : sizeOf l < sizeOf item := by
    cases hi : item with
    | mk id title link children noLink icon badge order mv =>
      rw [hi] at _hc
      simp only at _hc
      subst _hc
      simp
      omega
  omega
end

end Navigation

namespace Navigation

/-- `filterByVersion` from the navigation builder: drop everything when the
tree's allow-list misses the target version, else filter items recursively. -/
def filterByVersion (tree : NavTree) (version : String) : NavTree :=
  match tree.versions with
  | some vs =>
    if ¬ vs.contains version then { tree with items := [] }
    else { tree with items := filterItems tree.versions version tree.items }
  | none => { tree with items := filterItems tree.versions version tree.items }

mutual
/-- Modelled from the spec's words (§4.3): each item is kept only if its own
(or inherited) version constraint includes the target version, and a kept
item's children are filtered recursively by the same rule. -/
def specFilterItems (tv : Option (List String)) (v : String) :
    List NavItem → List NavItem
  | [] => []
  | item :: rest =>
    if keepItem tv v item then
      specFilterItem tv v item :: specFilterItems tv v rest
    else specFilterItems tv v rest

/-- One kept item of the spec's description: same fields, children filtered. -/
def specFilterItem (tv : Option (List String)) (v : String) : NavItem → NavItem
  | ⟨id, title, link, children, noLink, icon, badge, order, mv⟩ =>
    ⟨id, title, link,
      match children with
      | some l => some (specFilterItems tv v l)
      | none => none,
      noLink, icon, badge, order, mv⟩
end

/-- The spec's description of the whole transform. -/
def filterByVersionSpec (tree : NavTree) (version : String) : NavTree :=
  match tree.versions with
  | some vs =>
    if version ∈ vs then
      { tree with items := specFilterItems tree.versions version tree.items }
    else { tree with items := [] }
  | none => { tree with items := specFilterItems tree.versions version tree.items }

theorem filterItems_eq_map (tv : Option (List String)) (v : String)
    (items : List NavItem) :
    filterItems tv v items =
      (items.filter (keepItem tv v)).map (filterItemMap tv v) := by
  rw [filterItems]
  exact List.attach_map_val _ _

theorem filterItems_specFilterItems (tv : Option (List String)) (v : String) :
    ∀ n : Nat,
      (∀ items : List NavItem, sizeOf items ≤ n →
        filterItems tv v items = specFilterItems tv v items) ∧
      (∀ item : NavItem, sizeOf item ≤ n →
        filterItemMap tv v item = specFilterItem tv v item) := by
  intro n
  induction n with
  | zero =>
    constructor
    · intro items h
      exact absurd h (by cases items <;> simp)
    · intro item h
      refine absurd h ?_
      cases item
      simp
  | succ n ih =>
    constructor
    · intro items hsize
      cases items with
      | nil =>
        rw [filterItems_eq_map, specFilterItems]
        rfl
      | cons a rest =>
        simp only [List.cons.sizeOf_spec] at hsize
        have hsa : sizeOf a ≤ n := by omega
        have hsr : sizeOf rest ≤ n := by omega
        rw [filterItems_eq_map, List.filter_cons, specFilterItems]
        by_cases hk : keepItem tv v a
        · rw [if_pos (by exact hk), if_pos hk, List.map_cons,
            ← filterItems_eq_map, ih.2 a hsa, ih.1 rest hsr]
        · rw [if_neg (by simp [hk]), if_neg hk, ← filterItems_eq_map,
            ih.1 rest hsr]
    · intro item hsize
      cases item with
      | mk id title link children noLink icon badge order mv =>
        simp only [NavItem.mk.sizeOf_spec] at hsize
        cases children with
        | none =>
          rw [filterItemMap, specFilterItem]
        | some l =>
          have hsl : sizeOf l ≤ n := by
            simp only [Option.some.sizeOf_spec] at hsize
            omega
          rw [filterItemMap, specFilterItem]
          simp only []
          rw [ih.1 l hsl]

end Navigation

namespace Navigation

/-- C9: if the tree declares a versions allow-list missing the target
version, the result's items are empty; otherwise `filterByVersion` computes
exactly the spec's recursive filter (keep an item iff its own or inherited
constraint includes the target; recurse into kept items' children). -/
theorem filterByVersion_spec :
    (∀ (tree : NavTree) (version : String) (vs : List String),
      tree.versions = some vs → version ∉ vs →
      (filterByVersion tree version).items = []) ∧
    (∀ (tree : NavTree) (version : String),
      filterByVersion tree version = filterByVersionSpec tree version) := by
  constructor
  · intro tree version vs hvs hnot
    unfold filterByVersion
    rw [hvs]
    have hcontains : vs.contains version = false := by simpa using hnot
    simp [hcontains, hnot]
  · intro tree version
    have hitems : filterItems tree.versions version tree.items =
        specFilterItems tree.versions version tree.items :=
      (filterItems_specFilterItems tree.versions version
        (sizeOf tree.items)).1 tree.items le_rfl
    unfold filterByVersion filterByVersionSpec
    cases h : tree.versions with
    | none =>
      rw [h] at hitems
      simp [hitems]
    | some vs =>
      rw [h] at hitems
      by_cases hc : version ∈ vs
      · have hcon : vs.contains version = true := by simpa using hc
        simp [hcon, hc, hitems]
      · have hcon : vs.contains version = false := by simpa using hc
        simp [hcon, hc, hitems]

/-- A tree with a versions allow-list `["1.0"]` and one item. -/
def versionedTree : NavTree :=
  { id := "nav", label := none,
    items := [{ id := "a", title := "A", link := none, children := none,
                noLink := none, icon := none, badge := none, order := none,
                metadataVersions := none }],
    versions := some ["1.0"], dflt := none }

/-- C9 witness: the allow-list case at a concrete tree and version. -/
theorem filterByVersion_spec_witness :
    versionedTree.versions = some ["1.0"] ∧ "2.0" ∉ (["1.0"] : List String) ∧
    (filterByVersion versionedTree "2.0").items = [] :=
  ⟨rfl, by decide, filterByVersion_spec.1 versionedTree "2.0" ["1.0"] rfl (by decide)⟩

end Navigation

/-! ### Line-based segment scanner (`src/segments.ts`)

The document is a list of lines, each pre-classified by the two marker
regexes exactly as the scanner's `line.match(...)` calls classify it (start
checked before end; the regex/HTML-comment lexing itself is external): a
start-marker line carries its captured `key`/`type`/`audience` attribute
strings.  Whitespace for `trim` is space, tab, CR, LF. -/

namespace LineSegments

inductive LineTok
  | start (key : String) (typeAttr : Option String) (audienceAttr : Option String)
  | ending
  | text (s : String)
deriving DecidableEq

def isJsWS (c : Char) : Bool :=
  c = ' ' ∨ c = '\t' ∨ c = '\n' ∨ c = '\r'

def jsTrim (l : List Char) : List Char :=
  ((l.dropWhile isJsWS).reverse.dropWhile isJsWS).reverse

def splitCommaAux : List Char → List Char → List (List Char)
  | [], acc => [acc.reverse]
  | c :: rest, acc =>
    if c = ',' then acc.reverse :: splitCommaAux rest []
    else splitCommaAux rest (c :: acc)

/-- `audience.split(',').map(a => a.trim())`. -/
def jsSplitTrim (s : String) : List String :=
  (splitCommaAux s.toList []).map (fun l => String.mk (jsTrim l))

structure ParsedSegment where
  key : String
  type : Option String
  audience : Option (List String)
  content : String
  startLine : Nat
  endLine : Nat
deriving DecidableEq

/-- The `currentSegment` partial record. -/
structure OpenSeg where
  key : String
  type : Option String
  audience : Option (List String)
  startLine : Nat
deriving DecidableEq

/-- The three `throw new Error(...)` sites of `parseSegments`, with the data
their messages carry: `Nested segment markers not allowed at line ${line}`,
`Unmatched end marker at line ${line}`, `Unclosed segment marker: ${key}`. -/
inductive SegParseError
  | nestedMarkers (line : Nat)
  | unmatchedEnd (line : Nat)
  | unclosedMarker (key : String)
deriving DecidableEq

/-- The line loop of `parseSegments` (`i` is the 0-based index; messages and
`startLine`/`endLine` carry `i+1`). -/
def scanLines : List LineTok → Nat → Option OpenSeg → List String →
    List ParsedSegment → Except SegParseError (List ParsedSegment)
  | [], _, cur, _, acc =>
    match cur with
    | some c => .error (.unclosedMarker c.key)
    | none => .ok acc
  | tok :: rest, i, cur, contentLines, acc =>
    match tok with
    | .start k ty au =>
      match cur with
      | some _ => .error (.nestedMarkers (i + 1))
      | none =>
        scanLines rest (i + 1)
          (some { key := k,
                  type := match ty with
                          | some t => if t = "" then none else some t
                          | none => none,
                  audience := match au with
                              | some a =>
                                if a = "" then none else some (jsSplitTrim a)
                              | none => none,
                  startLine := i + 1 })
          [] acc
    | .ending =>
      match cur with
      | none => .error (.unmatchedEnd (i + 1))
      | some c =>
        scanLines rest (i + 1) none []
          (acc ++ [{ key := c.key, type := c.type, audience := c.audience,
                     content := String.intercalate "\n" contentLines,
                     startLine := c.startLine, endLine := i + 1 }])
    | .text s =>
      match cur with
      | some _ => scanLines rest (i + 1) cur (contentLines ++ [s]) acc
      | none => scanLines rest (i + 1) cur contentLines acc

/-- `parseSegments` from `src/segments.ts` over classified lines. -/
def parseSegmentsLines (lines : List LineTok) :
    Except SegParseError (List ParsedSegment) :=
  scanLines lines 0 none [] []

/-- Just the marker tokens of a document, in order. -/
inductive MTok
  | S (key : String)
  | E
deriving DecidableEq

def markerToks : List LineTok → List MTok
  | [] => []
  | .start k _ _ :: rest => .S k :: markerToks rest
  | .ending :: rest => .E :: markerToks rest
  | .text _ :: rest => markerToks rest

/-- The scanner's outcome kind, forgetting line numbers and segment data. -/
inductive ScanOutcome
  | okAll
  | nestedO
  | unmatchedO
  | unclosedO (key : String)
deriving DecidableEq

def resultKind : Except SegParseError (List ParsedSegment) → ScanOutcome
  | .ok _ => .okAll
  | .error (.nestedMarkers _) => .nestedO
  | .error (.unmatchedEnd _) => .unmatchedO
  | .error (.unclosedMarker k) => .unclosedO k

/-- The scan state machine over marker tokens alone. -/
def markerScan : List MTok → Option String → ScanOutcome
  | [], none => .okAll
  | [], some k => .unclosedO k
  | .S k :: rest, none => markerScan rest (some k)
  | .S _ :: _, some _ => .nestedO
  | .E :: rest, some _ => markerScan rest none
  | .E :: _, none => .unmatchedO

/-- A balanced sequence of marker pairs `(S k, E)*` — the spec's well-formed
prefix. -/
inductive BalancedPairs : List MTok → Prop
  | nil : BalancedPairs []
  | pair (k : String) (rest : List MTok) :
      BalancedPairs rest → BalancedPairs (.S k :: .E :: rest)

theorem scanLines_kind (lines : List LineTok) :
    ∀ (i : Nat) (cur : Option OpenSeg) (content : List String)
      (acc : List ParsedSegment),
      resultKind (scanLines lines i cur content acc) =
        markerScan (markerToks lines) (cur.map OpenSeg.key) := by
  induction lines with
  | nil =>
    intro i cur content acc
    cases cur <;> rfl
  | cons tok rest ih =>
    intro i cur content acc
    cases tok with
    | start k ty au =>
      cases cur with
      | none => simp only [scanLines, markerToks]; exact ih _ _ _ _
      | some c => rfl
    | ending =>
      cases cur with
      | none => rfl
      | some c => simp only [scanLines, markerToks]; exact ih _ _ _ _
    | text s =>
      cases cur with
      | none => simp only [scanLines, markerToks]; exact ih _ _ _ _
      | some c => simp only [scanLines, markerToks]; exact ih _ _ _ _

theorem markerScan_balanced_append (ps : List MTok) (h : BalancedPairs ps)
    (suffix : List MTok) :
    markerScan (ps ++ suffix) none = markerScan suffix none := by
  induction h with
  | nil => rfl
  | pair k rest _ ih => rw [List.cons_append, List.cons_append, markerScan,
      markerScan, ih]

end LineSegments

namespace LineSegments

/-- C3: a document whose marker sequence is balanced pairs followed by an
open start with no matching end fails with the unclosed-marker error naming
that key; a document whose marker sequence is balanced pairs followed by an
end marker (no open start precedes it) fails with the unmatched-end-marker
error; and the two error kinds are distinct. -/
theorem parseSegments_error_kinds :
    (∀ (lines : List LineTok) (ps : List MTok) (k : String),
      BalancedPairs ps → markerToks lines = ps ++ [MTok.S k] →
      parseSegmentsLines lines = .error (.unclosedMarker k)) ∧
    (∀ (lines : List LineTok) (ps rest : List MTok),
      BalancedPairs ps → markerToks lines = ps ++ MTok.E :: rest →
      ∃ i, parseSegmentsLines lines = .error (.unmatchedEnd i)) ∧
    (∀ (k : String) (i : Nat),
      SegParseError.unclosedMarker k ≠ SegParseError.unmatchedEnd i) := by
  refine ⟨?_, ?_, ?_⟩
  · intro lines ps k hbal hmt
    have hk := scanLines_kind lines 0 none [] []
    simp only [Option.map_none'] at hk
    rw [hmt, markerScan_balanced_append ps hbal] at hk
    have h2 : markerScan [MTok.S k] none = ScanOutcome.unclosedO k := rfl
    rw [h2] at hk
    unfold parseSegmentsLines
    cases hr : scanLines lines 0 none [] [] with
    | ok v => rw [hr] at hk; simp [resultKind] at hk
    | error e =>
      rw [hr] at hk
      cases e with
      | nestedMarkers j => simp [resultKind] at hk
      | unmatchedEnd j => simp [resultKind] at hk
      | unclosedMarker k2 =>
        simp only [resultKind, ScanOutcome.unclosedO.injEq] at hk
        rw [hk]
  · intro lines ps rest hbal hmt
    have hk := scanLines_kind lines 0 none [] []
    simp only [Option.map_none'] at hk
    rw [hmt, markerScan_balanced_append ps hbal] at hk
    have h2 : markerScan (MTok.E :: rest) none = ScanOutcome.unmatchedO := rfl
    rw [h2] at hk
    unfold parseSegmentsLines
    cases hr : scanLines lines 0 none [] [] with
    | ok v => rw [hr] at hk; simp [resultKind] at hk
    | error e =>
      rw [hr] at hk
      cases e with
      | nestedMarkers j => simp [resultKind] at hk
      | unmatchedEnd j => exact ⟨j, rfl⟩
      | unclosedMarker k2 => simp [resultKind] at hk
  · intro k i h
    exact SegParseError.noConfusion h

/-- A document ending with an open start marker. -/
def unclosedDoc : List LineTok := [LineTok.start "a" none none, LineTok.text "x"]

/-- A document with a lone end marker. -/
def unmatchedDoc : List LineTok := [LineTok.text "y", LineTok.ending]

/-- C3 witness: both error shapes at concrete documents. -/
theorem parseSegments_error_kinds_witness :
    BalancedPairs [] ∧
    markerToks unclosedDoc = [] ++ [MTok.S "a"] ∧
    parseSegmentsLines unclosedDoc = .error (.unclosedMarker "a") ∧
    (∃ i, parseSegmentsLines unmatchedDoc = .error (.unmatchedEnd i)) :=
  ⟨.nil, rfl, parseSegments_error_kinds.1 unclosedDoc [] "a" .nil rfl,
    parseSegments_error_kinds.2.1 unmatchedDoc [] [] .nil rfl⟩

end LineSegments

/-! ### Marker scanner & segment assembler (`primitives/segments/parser.ts`)

The two regex passes are external lexing: `startMatches`/`endMatches` are the
match lists (`index`, match `length`, captured `key` for starts) in
left-to-right order, as `RegExp.exec` produces them.  Offsets are character
offsets.  Thrown `Error`s are an inductive error type carrying the data the
messages interpolate. -/

namespace SegScanner

structure StartMatch where
  index : Nat
  length : Nat
  key : String
deriving DecidableEq

structure EndMatch where
  index : Nat
  length : Nat
deriving DecidableEq

structure MarkerRange where
  id : String
  startMarkerBegin : Nat
  startMarkerEnd : Nat
  endMarkerBegin : Nat
  endMarkerEnd : Nat
deriving DecidableEq

/-- The three throw sites of `parseMarkers`:
`Mismatched segment markers: found ${a} start markers and ${b} end markers`,
`Segment end marker appears before start marker ends`, and
`Nested segments not allowed: segment '${innerId}' starts before '${outerId}'
ends`. -/
inductive MarkerError
  | countMismatch (starts ends : Nat)
  | orderError
  | nested (innerId outerId : String)
deriving DecidableEq

def mkRange (offsetAdjust : Nat) (s : StartMatch) (e : EndMatch) : MarkerRange :=
  { id := s.key,
    startMarkerBegin := s.index + offsetAdjust,
    startMarkerEnd := s.index + s.length + offsetAdjust,
    endMarkerBegin := e.index + offsetAdjust,
    endMarkerEnd := e.index + e.length + offsetAdjust }

/-- The pairing loop of `parseMarkers` over the (equal-length) zipped match
lists: ordering check, then nesting look-ahead at the next start marker. -/
def pairMarkers (offsetAdjust : Nat) :
    List (StartMatch × EndMatch) → Except MarkerError (List MarkerRange)
  | [] => .ok []
  | (s, e) :: rest =>
    if e.index < s.index + s.length then .error .orderError
    else
      match rest with
      | (s2, _) :: _ =>
        if s2.index < e.index then .error (.nested s2.key s.key)
        else
          match pairMarkers offsetAdjust rest with
          | .error err => .error err
          | .ok rs => .ok (mkRange offsetAdjust s e :: rs)
      | [] =>
        match pairMarkers offsetAdjust rest with
        | .error err => .error err
        | .ok rs => .ok (mkRange offsetAdjust s e :: rs)

/-- `parseMarkers` from `primitives/segments/parser.ts`. -/
def parseMarkers (starts : List StartMatch) (ends : List EndMatch)
    (offsetAdjust : Nat) : Except MarkerError (List MarkerRange) :=
  if starts.length ≠ ends.length then
    .error (.countMismatch starts.length ends.length)
  else pairMarkers offsetAdjust (starts.zip ends)

structure RetConfig where
  maxTokens : Option ℚ
deriving DecidableEq

structure GenConfig where
  maxTokens : Option ℚ
  temperature : Option ℚ
  iterations : Option ℚ
deriving DecidableEq

/-- A frontmatter segment spec after YAML parsing; `return` is modelled as
`ret`.  `audienceRole` may be a raw string or list before normalization. -/
structure RawSegSpec where
  id : String
  type : Option String
  audienceRole : Option Aggregator.StrOrList
  concepts : Option (List String)
  boost : Option ℚ
  ret : Option RetConfig
  generate : Option GenConfig
deriving DecidableEq

/-- A spec after the parse-time normalization. -/
structure SegSpec where
  id : String
  type : Option String
  audienceRole : Option (List String)
  concepts : Option (List String)
  boost : Option ℚ
  ret : Option RetConfig
  generate : Option GenConfig
deriving DecidableEq

/-- `normalizeAudienceRole` plus the boost default: a falsy audience (absent
or `""`) becomes absent, a string becomes a one-element list; a falsy boost
(absent or 0) becomes 1.0. -/
def normalizeSpec (s : RawSegSpec) : SegSpec :=
  { id := s.id, type := s.type,
    audienceRole :=
      match s.audienceRole with
      | some (.str v) => if v = "" then none else some [v]
      | some (.list l) => some l
      | none => none,
    concepts := s.concepts,
    boost :=
      match s.boost with
      | some b => if b = 0 then some 1 else some b
      | none => some 1,
    ret := s.ret, generate := s.generate }

structure SegmentInstance where
  id : String
  spec : Option SegSpec
  body : String
  startByte : Nat
  endByte : Nat
deriving DecidableEq

structure ParsedDoc where
  specs : Option (List SegSpec)
  segments : List SegmentInstance
deriving DecidableEq

/-- `specMap.get(id)`: the spec map is built by `Map.set` in list order, so a
later spec with the same id wins. -/
def specMapGet (specs : List SegSpec) (id : String) : Option SegSpec :=
  specs.reverse.find? (fun s => s.id = id)

/-- `parseSegments` from `primitives/segments/parser.ts` (frontmatter
extraction and regex scanning are the external inputs): normalize the specs,
pair the markers — propagating their structural failures — and build one
instance per range with `spec` looked up by id (`null` when absent, never a
failure) and `body` the trimmed substring between the marker boundaries. -/
def parseSegmentsCore (docText : List Char) (rawSpecs : Option (List RawSegSpec))
    (starts : List StartMatch) (ends : List EndMatch)
    (frontmatterEndByte : Nat) : Except MarkerError ParsedDoc :=
  let specs := rawSpecs.map (fun l => l.map normalizeSpec)
  match parseMarkers starts ends frontmatterEndByte with
  | .error e => .error e
  | .ok markers =>
    .ok { specs := specs,
          segments := markers.map (fun m =>
            { id := m.id,
              spec := specMapGet (specs.getD []) m.id,
              body := String.mk (LineSegments.jsTrim
                (jsSubstring docText m.startMarkerEnd m.endMarkerBegin)),
              startByte := m.startMarkerEnd,
              endByte := m.endMarkerBegin }) }

end SegScanner

namespace SegScanner

structure ValidationError where
  segmentId : Option String
  field : Option String
  message : String
deriving DecidableEq

/-- The post-`continue` checks of one frontmatter spec in `validateSegments`
(run only when the id is non-empty). -/
def specRestChecks (spec : SegSpec) : List ValidationError :=
  (if ¬spec.ret.isSome ∧ ¬spec.generate.isSome then
    [{ segmentId := some spec.id, field := none,
       message := "segment must have either 'return' or 'generate' configuration" }]
   else []) ++
  (if spec.ret.isSome ∧ spec.generate.isSome then
    [{ segmentId := some spec.id, field := none,
       message := "segment cannot have both 'return' and 'generate' configuration" }]
   else []) ++
  (match spec.ret with
   | some r =>
     match r.maxTokens with
     | some t =>
       if t < 0 then
         [{ segmentId := some spec.id, field := some "return.max_tokens",
            message := "max_tokens must be non-negative" }]
       else []
     | none => []
   | none => []) ++
  (match spec.generate with
   | some g =>
     (match g.maxTokens with
      | some t =>
        if t < 0 then
          [{ segmentId := some spec.id, field := some "generate.max_tokens",
             message := "max_tokens must be non-negative" }]
        else []
      | none => []) ++
     (match g.temperature with
      | some t =>
        if t < 0 ∨ t > 2 then
          [{ segmentId := some spec.id, field := some "generate.temperature",
             message := "temperature must be between 0.0 and 2.0" }]
        else []
      | none => []) ++
     (match g.iterations with
      | some t =>
        if t < 0 then
          [{ segmentId := some spec.id, field := some "generate.iterations",
             message := "iterations must be non-negative" }]
        else []
      | none => [])
   | none => []) ++
  (match spec.boost with
   | some b =>
     if b < 0 then
       [{ segmentId := some spec.id, field := some "boost",
          message := "boost must be non-negative" }]
     else []
   | none => [])

/-- One frontmatter spec's checks: duplicate id (against ids seen so far,
which include empty ones), then the empty-id check that `continue`s. -/
def specBlock (seen : List String) (spec : SegSpec) : List ValidationError :=
  (if spec.id ∈ seen then
    [{ segmentId := some spec.id, field := some "id",
       message := "duplicate segment ID in frontmatter" }]
   else []) ++
  (if spec.id = "" then
    [{ segmentId := none, field := some "id",
       message := "segment ID cannot be empty" }]
   else specRestChecks spec)

def specLoop (seen : List String) : List SegSpec → List ValidationError
  | [] => []
  | spec :: rest => specBlock seen spec ++ specLoop (spec.id :: seen) rest

/-- The marker loop: duplicate marker ids, and markers without specs. -/
def markerLoop (seen : List String) : List SegmentInstance → List ValidationError
  | [] => []
  | seg :: rest =>
    (if seg.id ∈ seen then
      [{ segmentId := some seg.id, field := none,
         message := "duplicate segment ID in document markers" }]
     else []) ++
    (if seg.spec.isNone then
      [{ segmentId := some seg.id, field := none,
         message := "segment marker has no corresponding frontmatter spec" }]
     else []) ++
    markerLoop (seg.id :: seen) rest

/-- The final loop: specs with no corresponding marker. -/
def specsWithoutMarkers (markerIDs : List String) (specs : List SegSpec) :
    List ValidationError :=
  specs.flatMap (fun spec =>
    if spec.id ∈ markerIDs then []
    else
      [{ segmentId := some spec.id, field := none,
         message := "frontmatter spec has no corresponding segment marker in document" }])

/-- `validateSegments` from `primitives/segments/validator` module. -/
def validateSegments (parsed : ParsedDoc) : List ValidationError :=
  (match parsed.specs with
   | some specs => specLoop [] specs
   | none => []) ++
  markerLoop [] parsed.segments ++
  (match parsed.specs with
   | some specs =>
     specsWithoutMarkers (parsed.segments.map SegmentInstance.id) specs
   | none => [])

/-- `validateStrict`: all checks. -/
def validateStrict (parsed : ParsedDoc) : List ValidationError :=
  validateSegments parsed

/-- One spec's checks in `validateLoose`: duplicates, mutual exclusion, and
ranges (no empty-id, no missing-config, no iterations check). -/
def looseSpecBlock (seen : List String) (spec : SegSpec) : List ValidationError :=
  (if spec.id ∈ seen then
    [{ segmentId := some spec.id, field := some "id",
       message := "duplicate segment ID in frontmatter" }]
   else []) ++
  (if spec.ret.isSome ∧ spec.generate.isSome then
    [{ segmentId := some spec.id, field := none,
       message := "segment cannot have both 'return' and 'generate' configuration" }]
   else []) ++
  (match spec.ret with
   | some r =>
     match r.maxTokens with
     | some t =>
       if t < 0 then
         [{ segmentId := some spec.id, field := some "return.max_tokens",
            message := "max_tokens must be non-negative" }]
       else []
     | none => []
   | none => []) ++
  (match spec.generate with
   | some g =>
     (match g.maxTokens with
      | some t =>
        if t < 0 then
          [{ segmentId := some spec.id, field := some "generate.max_tokens",
             message := "max_tokens must be non-negative" }]
        else []
      | none => []) ++
     (match g.temperature with
      | some t =>
        if t < 0 ∨ t > 2 then
          [{ segmentId := some spec.id, field := some "generate.temperature",
             message := "temperature must be between 0.0 and 2.0" }]
        else []
      | none => [])
   | none => []) ++
  (match spec.boost with
   | some b =>
     if b < 0 then
       [{ segmentId := some spec.id, field := some "boost",
          message := "boost must be non-negative" }]
     else []
   | none => [])

def looseSpecLoop (seen : List String) : List SegSpec → List ValidationError
  | [] => []
  | spec :: rest => looseSpecBlock seen spec ++ looseSpecLoop (spec.id :: seen) rest

def looseMarkerLoop (seen : List String) : List SegmentInstance → List ValidationError
  | [] => []
  | seg :: rest =>
    (if seg.id ∈ seen then
      [{ segmentId := some seg.id, field := none,
         message := "duplicate segment ID in document markers" }]
     else []) ++
    looseMarkerLoop (seg.id :: seen) rest

/-- `validateLoose`: only duplicates and config/range violations. -/
def validateLoose (parsed : ParsedDoc) : List ValidationError :=
  (match parsed.specs with
   | some specs => looseSpecLoop [] specs
   | none => []) ++
  looseMarkerLoop [] parsed.segments

/-- The strict finding for a marker without a spec. -/
def markerNoSpecMsg : String := "segment marker has no corresponding frontmatter spec"

/-- The strict finding for a spec without a marker. -/
def specNoMarkerMsg : String :=
  "frontmatter spec has no corresponding segment marker in document"

end SegScanner

namespace SegScanner

theorem pairMarkers_nested (off : Nat) :
    ∀ (i : Nat) (l : List (StartMatch × EndMatch)) (hi : i + 1 < l.length),
      (l.get ⟨i + 1, hi⟩).1.index < (l.get ⟨i, by omega⟩).2.index →
      (∀ (j : Nat) (hj : j ≤ i),
        ¬((l.get ⟨j, by omega⟩).2.index <
          (l.get ⟨j, by omega⟩).1.index + (l.get ⟨j, by omega⟩).1.length)) →
      (∀ (j : Nat) (hj : j < i),
        ¬((l.get ⟨j + 1, by omega⟩).1.index < (l.get ⟨j, by omega⟩).2.index)) →
      pairMarkers off l = .error (.nested (l.get ⟨i + 1, hi⟩).1.key
        (l.get ⟨i, by omega⟩).1.key) := by
  intro i
  induction i with
  | zero =>
    intro l hi hnest hord _
    match l, hi with
    | (s, e) :: (s2, e2) :: rest, _ =>
      have h0 := hord 0 (Nat.le_refl 0)
      simp only [List.get] at h0 hnest ⊢
      simp only [pairMarkers]
      rw [if_neg h0, if_pos hnest]
  | succ i ih =>
    intro l hi hnest hord hpre
    match l, hi with
    | (s, e) :: l', hi =>
      have h0 := hord 0 (Nat.zero_le _)
      have hnest0 := hpre 0 (Nat.succ_pos i)
      have hi' : i + 1 < l'.length := by
        simp only [List.length_cons] at hi
        omega
      have ihl := ih l' hi'
        (by
          have := hnest
          simp only [List.get] at this ⊢
          exact this)
        (by
          intro j hj
          have := hord (j + 1) (by omega)
          simp only [List.get] at this ⊢
          exact this)
        (by
          intro j hj
          have := hpre (j + 1) (by omega)
          simp only [List.get] at this ⊢
          exact this)
      simp only [List.get] at h0 hnest0 ⊢
      simp only [pairMarkers]
      rw [if_neg h0]
      match hl' : l', hi' with
      | (s2, e2) :: rest, _ =>
        simp only [List.get] at hnest0
        show (if s2.index < e.index then
            Except.error (MarkerError.nested s2.key s.key)
          else
            match pairMarkers off ((s2, e2) :: rest) with
            | Except.error err => Except.error err
            | Except.ok rs => Except.ok (mkRange off s e :: rs)) = _
        rw [if_neg hnest0, ihl]

end SegScanner

theorem zip_get_fst {α β : Type} (l : List α) (l' : List β) (k : Nat)
    (h : k < (l.zip l').length) :
    ((l.zip l').get ⟨k, h⟩).1 =
      l.get ⟨k, by simp at h; omega⟩ := by
  simp [List.get_eq_getElem, List.getElem_zip]

theorem zip_get_snd {α β : Type} (l : List α) (l' : List β) (k : Nat)
    (h : k < (l.zip l').length) :
    ((l.zip l').get ⟨k, h⟩).2 =
      l'.get ⟨k, by simp at h; omega⟩ := by
  simp [List.get_eq_getElem, List.getElem_zip]

namespace SegScanner

/-- C2: when the counts match, every ordering check up to position `i`
passes, no earlier nesting occurs, and start marker `i+1` begins before end
marker `i`, parsing fails with the nesting error carrying both segment ids
(the inner id `starts[i+1].key` and the outer id `starts[i].key`); the
segments are never silently flattened.  With equal counts, the `j`-th element
of `starts.zip ends` is exactly the ordinal pair `(starts[j], ends[j])` the
loop inspects. -/
theorem parseSegments_nesting (docText : List Char)
    (rawSpecs : Option (List RawSegSpec)) (starts : List StartMatch)
    (ends : List EndMatch) (off : Nat) (i : Nat)
    (hlen : starts.length = ends.length)
    (hi : i + 1 < (starts.zip ends).length)
    (hnest : ((starts.zip ends).get ⟨i + 1, hi⟩).1.index <
      ((starts.zip ends).get ⟨i, by omega⟩).2.index)
    (hord : ∀ (j : Nat) (hj : j ≤ i),
      ¬(((starts.zip ends).get ⟨j, by omega⟩).2.index <
        ((starts.zip ends).get ⟨j, by omega⟩).1.index +
          ((starts.zip ends).get ⟨j, by omega⟩).1.length))
    (hpre : ∀ (j : Nat) (hj : j < i),
      ¬(((starts.zip ends).get ⟨j + 1, by omega⟩).1.index <
        ((starts.zip ends).get ⟨j, by omega⟩).2.index)) :
    parseMarkers starts ends off =
      .error (.nested ((starts.zip ends).get ⟨i + 1, hi⟩).1.key
        ((starts.zip ends).get ⟨i, by omega⟩).1.key) ∧
    parseSegmentsCore docText rawSpecs starts ends off =
      .error (.nested ((starts.zip ends).get ⟨i + 1, hi⟩).1.key
        ((starts.zip ends).get ⟨i, by omega⟩).1.key) := by
  have hp := pairMarkers_nested off i (starts.zip ends) hi hnest hord hpre
  have hpm : parseMarkers starts ends off =
      .error (.nested ((starts.zip ends).get ⟨i + 1, hi⟩).1.key
        ((starts.zip ends).get ⟨i, by omega⟩).1.key) := by
    unfold parseMarkers
    rw [if_neg (by omega)]
    exact hp
  refine ⟨hpm, ?_⟩
  unfold parseSegmentsCore
  rw [hpm]

/-- C2 witness: two start markers where the second begins before the first
end marker. -/
theorem parseSegments_nesting_witness :
    parseMarkers [⟨0, 5, "a"⟩, ⟨7, 5, "b"⟩] [⟨20, 4⟩, ⟨30, 4⟩] 0 =
      .error (.nested "b" "a") ∧
    parseSegmentsCore [] none [⟨0, 5, "a"⟩, ⟨7, 5, "b"⟩] [⟨20, 4⟩, ⟨30, 4⟩] 0 =
      .error (.nested "b" "a") :=
  by
  refine parseSegments_nesting [] none [⟨0, 5, "a"⟩, ⟨7, 5, "b"⟩]
    [⟨20, 4⟩, ⟨30, 4⟩] 0 0 rfl (by decide) (by decide) ?_ ?_
  · intro j hj
    interval_cases j
    exact (by decide : ¬((20:Nat) < 0 + 5))
  · intro j hj
    omega

end SegScanner

namespace SegScanner

set_option maxHeartbeats 2000000 in
theorem specBlock_countP_noSpec (seen : List String) (spec : SegSpec) :
    (specBlock seen spec).countP (fun e => e.message = markerNoSpecMsg) = 0 := by
  unfold specBlock specRestChecks markerNoSpecMsg
  simp only [List.countP_append]
  repeat' split
  all_goals simp

set_option maxHeartbeats 2000000 in
theorem specBlock_countP_noMarker (seen : List String) (spec : SegSpec) :
    (specBlock seen spec).countP (fun e => e.message = specNoMarkerMsg) = 0 := by
  unfold specBlock specRestChecks specNoMarkerMsg
  simp only [List.countP_append]
  repeat' split
  all_goals simp

theorem specLoop_countP_noSpec (specs : List SegSpec) :
    ∀ seen, (specLoop seen specs).countP
      (fun e => e.message = markerNoSpecMsg) = 0 := by
  induction specs with
  | nil => intro seen; rfl
  | cons s rest ih =>
    intro seen
    rw [specLoop, List.countP_append, specBlock_countP_noSpec, ih]

theorem specLoop_countP_noMarker (specs : List SegSpec) :
    ∀ seen, (specLoop seen specs).countP
      (fun e => e.message = specNoMarkerMsg) = 0 := by
  induction specs with
  | nil => intro seen; rfl
  | cons s rest ih =>
    intro seen
    rw [specLoop, List.countP_append, specBlock_countP_noMarker, ih]

theorem markerLoop_countP_noSpec (segs : List SegmentInstance) :
    ∀ seen, (markerLoop seen segs).countP
      (fun e => e.message = markerNoSpecMsg) =
      segs.countP (fun s => s.spec.isNone) := by
  induction segs with
  | nil => intro seen; rfl
  | cons seg rest ih =>
    intro seen
    rw [markerLoop, List.countP_append, List.countP_append, ih,
      List.countP_cons]
    by_cases h1 : seg.id ∈ seen <;> by_cases h2 : seg.spec.isNone <;>
      (simp [h1, h2, markerNoSpecMsg]; try omega)

theorem markerLoop_countP_noMarker (segs : List SegmentInstance) :
    ∀ seen, (markerLoop seen segs).countP
      (fun e => e.message = specNoMarkerMsg) = 0 := by
  induction segs with
  | nil => intro seen; rfl
  | cons seg rest ih =>
    intro seen
    rw [markerLoop, List.countP_append, List.countP_append, ih]
    by_cases h1 : seg.id ∈ seen <;> by_cases h2 : seg.spec.isNone <;>
      simp [h1, h2, specNoMarkerMsg, markerNoSpecMsg]

theorem specsWithoutMarkers_countP_noMarker (ids : List String)
    (specs : List SegSpec) :
    (specsWithoutMarkers ids specs).countP
      (fun e => e.message = specNoMarkerMsg) =
      specs.countP (fun s => decide (s.id ∉ ids)) := by
  induction specs with
  | nil => rfl
  | cons s rest ih =>
    rw [specsWithoutMarkers, List.flatMap_cons, List.countP_append,
      List.countP_cons, ← specsWithoutMarkers, ih]
    by_cases h : s.id ∈ ids <;> (simp [h, specNoMarkerMsg]; try omega)

theorem specsWithoutMarkers_countP_noSpec (ids : List String)
    (specs : List SegSpec) :
    (specsWithoutMarkers ids specs).countP
      (fun e => e.message = markerNoSpecMsg) = 0 := by
  induction specs with
  | nil => rfl
  | cons s rest ih =>
    rw [specsWithoutMarkers, List.flatMap_cons, List.countP_append,
      ← specsWithoutMarkers, ih]
    by_cases h : s.id ∈ ids <;> simp [h, specNoMarkerMsg, markerNoSpecMsg]

set_option maxHeartbeats 2000000 in
theorem looseSpecBlock_countP_noSpec (seen : List String) (spec : SegSpec) :
    (looseSpecBlock seen spec).countP
      (fun e => e.message = markerNoSpecMsg) = 0 := by
  unfold looseSpecBlock markerNoSpecMsg
  simp only [List.countP_append]
  repeat' split
  all_goals simp

set_option maxHeartbeats 2000000 in
theorem looseSpecBlock_countP_noMarker (seen : List String) (spec : SegSpec) :
    (looseSpecBlock seen spec).countP
      (fun e => e.message = specNoMarkerMsg) = 0 := by
  unfold looseSpecBlock specNoMarkerMsg
  simp only [List.countP_append]
  repeat' split
  all_goals simp

theorem looseSpecLoop_countP_noSpec (specs : List SegSpec) :
    ∀ seen, (looseSpecLoop seen specs).countP
      (fun e => e.message = markerNoSpecMsg) = 0 := by
  induction specs with
  | nil => intro seen; rfl
  | cons s rest ih =>
    intro seen
    rw [looseSpecLoop, List.countP_append, looseSpecBlock_countP_noSpec, ih]

theorem looseSpecLoop_countP_noMarker (specs : List SegSpec) :
    ∀ seen, (looseSpecLoop seen specs).countP
      (fun e => e.message = specNoMarkerMsg) = 0 := by
  induction specs with
  | nil => intro seen; rfl
  | cons s rest ih =>
    intro seen
    rw [looseSpecLoop, List.countP_append, looseSpecBlock_countP_noMarker, ih]

theorem looseMarkerLoop_countP_noSpec (segs : List SegmentInstance) :
    ∀ seen, (looseMarkerLoop seen segs).countP
      (fun e => e.message = markerNoSpecMsg) = 0 := by
  induction segs with
  | nil => intro seen; rfl
  | cons seg rest ih =>
    intro seen
    rw [looseMarkerLoop, List.countP_append, ih]
    by_cases h : seg.id ∈ seen <;> simp [h, markerNoSpecMsg]

theorem looseMarkerLoop_countP_noMarker (segs : List SegmentInstance) :
    ∀ seen, (looseMarkerLoop seen segs).countP
      (fun e => e.message = specNoMarkerMsg) = 0 := by
  induction segs with
  | nil => intro seen; rfl
  | cons seg rest ih =>
    intro seen
    rw [looseMarkerLoop, List.countP_append, ih]
    by_cases h : seg.id ∈ seen <;> simp [h, specNoMarkerMsg]

end SegScanner

namespace SegScanner

/-- C4: two-phase separation.  When the markers pair, `parseSegments`
succeeds, with each instance's `spec` the (possibly null) lookup by id;
strict validation reports exactly one missing-spec finding per marker without
a spec and one missing-marker finding per spec without a marker; loose
validation reports neither kind. -/
theorem parseSegments_two_phase :
    (∀ (docText : List Char) (rawSpecs : Option (List RawSegSpec))
       (starts : List StartMatch) (ends : List EndMatch) (off : Nat)
       (markers : List MarkerRange),
      parseMarkers starts ends off = .ok markers →
      parseSegmentsCore docText rawSpecs starts ends off =
        .ok { specs := rawSpecs.map (fun l => l.map normalizeSpec),
              segments := markers.map (fun m =>
                { id := m.id,
                  spec := specMapGet
                    ((rawSpecs.map (fun l => l.map normalizeSpec)).getD []) m.id,
                  body := String.mk (LineSegments.jsTrim
                    (jsSubstring docText m.startMarkerEnd m.endMarkerBegin)),
                  startByte := m.startMarkerEnd,
                  endByte := m.endMarkerBegin }) }) ∧
    (∀ parsed : ParsedDoc,
      (validateStrict parsed).countP (fun e => e.message = markerNoSpecMsg) =
        parsed.segments.countP (fun s => s.spec.isNone) ∧
      (validateStrict parsed).countP (fun e => e.message = specNoMarkerMsg) =
        (parsed.specs.getD []).countP
          (fun s => decide (s.id ∉ parsed.segments.map SegmentInstance.id))) ∧
    (∀ parsed : ParsedDoc,
      (validateLoose parsed).countP (fun e => e.message = markerNoSpecMsg) = 0 ∧
      (validateLoose parsed).countP (fun e => e.message = specNoMarkerMsg) = 0) := by
  refine ⟨?_, ?_, ?_⟩
  · intro docText rawSpecs starts ends off markers h
    unfold parseSegmentsCore
    rw [h]
  · intro parsed
    unfold validateStrict validateSegments
    constructor
    · rw [List.countP_append, List.countP_append, markerLoop_countP_noSpec]
      cases hs : parsed.specs with
      | none => simp
      | some specs =>
        rw [specLoop_countP_noSpec, specsWithoutMarkers_countP_noSpec]
        simp
    · rw [List.countP_append, List.countP_append, markerLoop_countP_noMarker]
      cases hs : parsed.specs with
      | none => simp
      | some specs =>
        rw [specLoop_countP_noMarker, specsWithoutMarkers_countP_noMarker]
        simp
  · intro parsed
    unfold validateLoose
    constructor
    · rw [List.countP_append, looseMarkerLoop_countP_noSpec]
      cases hs : parsed.specs with
      | none => simp
      | some specs => rw [looseSpecLoop_countP_noSpec]
    · rw [List.countP_append, looseMarkerLoop_countP_noMarker]
      cases hs : parsed.specs with
      | none => simp
      | some specs => rw [looseSpecLoop_countP_noMarker]

/-- C4 witness: one marker pair, no frontmatter specs — parsing succeeds with
`spec = null`, and the theorem's conclusion holds at this input. -/
theorem parseSegments_two_phase_witness :
    parseMarkers [⟨0, 2, "a"⟩] [⟨5, 2⟩] 0 = .ok [⟨"a", 0, 2, 5, 7⟩] ∧
    parseSegmentsCore "ab cd efg".toList (some []) [⟨0, 2, "a"⟩] [⟨5, 2⟩] 0 =
      .ok { specs := some [],
            segments := [{ id := "a", spec := none, body := "cd",
                           startByte := 2, endByte := 5 }] } := by
  have h1 : parseMarkers [⟨0, 2, "a"⟩] [⟨5, 2⟩] 0 = .ok [⟨"a", 0, 2, 5, 7⟩] := by
    rfl
  refine ⟨h1, ?_⟩
  rw [parseSegments_two_phase.1 "ab cd efg".toList (some [])
    [⟨0, 2, "a"⟩] [⟨5, 2⟩] 0 [⟨"a", 0, 2, 5, 7⟩] h1]
  rfl

end SegScanner

/-! ### Journeys (`src/journeys.ts` module of `validateJourney`/`hasCycles`)

`hasCycles` runs the recursive JS `dfs` with `visited`/`recStack` sets; here
the recursion carries an explicit fuel (the JS call stack is unbounded), the
functional `stack` parameter is the current recursion path (deepest first),
and `hasCycles` supplies fuel that provably always suffices.  Node fields the
validator never reads are not modelled. -/

namespace Journeys

inductive NodeType
  | stage | milestone | decision | jump_off
deriving DecidableEq

structure NodeConnection where
  target_node_id : Option String
  target_journey : Option String
  label : Option String
  condition : Option String
deriving DecidableEq

structure JourneyNode where
  id : String
  type : NodeType
  key : String
  name : String
  connections : List NodeConnection
deriving DecidableEq

structure Journey where
  id : String
  key : String
  name : String
  projects : List String
  nodes : List JourneyNode
deriving DecidableEq

/-- `(node.connections ?? []).map(c => c.target_node_id).filter(Boolean)`:
absent targets and the falsy empty string are dropped. -/
def connTargets (n : JourneyNode) : List String :=
  n.connections.filterMap (fun c =>
    match c.target_node_id with
    | some t => if t = "" then none else some t
    | none => none)

/-- `graph.get(nodeId) || []` where the graph map was built by `Map.set` over
the nodes in order (a later node with the same id overwrites an earlier
one). -/
def graphGet (nodes : List JourneyNode) (id : String) : List String :=
  match nodes.reverse.find? (fun n => n.id = id) with
  | some n => connTargets n
  | none => []

/-- The `for (const neighbor of neighbors)` loop inside `dfs`, parameterized
by the recursive `dfs` call at one less fuel. -/
def dfsStep (k : String → List String → List String → Option (Bool × List String)) :
    List String → List String → List String → Option (Bool × List String)
  | [], visited, _ => some (false, visited)
  | nb :: rest, visited, stack =>
    if nb ∈ visited then
      if nb ∈ stack then some (true, visited)
      else dfsStep k rest visited stack
    else
      match k nb visited stack with
      | none => none
      | some (true, v) => some (true, v)
      | some (false, v) => dfsStep k rest v stack

/-- The JS `dfs(nodeId)`: mark visited, push on the recursion stack, walk the
neighbors.  Returns `none` when the fuel (call-stack depth) runs out, else
the JS boolean plus the visited set. -/
def dfs (nodes : List JourneyNode) :
    Nat → String → List String → List String → Option (Bool × List String)
  | 0, _, _, _ => none
  | fuel + 1, nodeId, visited, stack =>
    dfsStep (dfs nodes fuel) (graphGet nodes nodeId) (nodeId :: visited)
      (nodeId :: stack)

/-- The neighbor loop at a given fuel level. -/
def dfsList (nodes : List JourneyNode) (fuel : Nat) :
    List String → List String → List String → Option (Bool × List String) :=
  dfsStep (dfs nodes fuel)

/-- The outer `for (const node of nodes)` loop of `hasCycles`. -/
def runNodes (nodes : List JourneyNode) :
    Nat → List JourneyNode → List String → Option Bool
  | _, [], _ => some false
  | fuel, n :: rest, visited =>
    if n.id ∈ visited then runNodes nodes fuel rest visited
    else
      match dfs nodes fuel n.id visited [] with
      | none => none
      | some (true, _) => some true
      | some (false, v) => runNodes nodes fuel rest v

/-- A call-stack bound that always suffices (proved below): more than the
number of node ids and connection targets. -/
def bigFuel (nodes : List JourneyNode) : Nat :=
  ((nodes.map JourneyNode.id) ++ nodes.flatMap connTargets).length + 1

/-- `hasCycles` from the journeys module. -/
def hasCycles (nodes : List JourneyNode) : Bool :=
  (runNodes nodes (bigFuel nodes) nodes []).getD false

def cycleMsg : String := "Journey graph contains cycles (must be DAG)"

/-- The journey-level required-field checks of `validateJourney`. -/
def journeyChecks (j : Journey) : List String :=
  (if j.id = "" then ["Journey ID is required"] else []) ++
  (if j.key = "" then ["Journey key is required"] else []) ++
  (if j.name = "" then ["Journey name is required"] else []) ++
  (if j.projects.length = 0 then ["At least one project required"] else []) ++
  (if j.nodes.length = 0 then ["At least one node required"] else [])

/-- One node's checks (the per-connection loop in the source has an empty
body — the noted forward-reference incompleteness — and contributes
nothing). -/
def nodeChecks (seen : List String) (n : JourneyNode) : List String :=
  (if n.id = "" then ["Node ID is required"] else []) ++
  (if n.id ∈ seen then ["Duplicate node ID: " ++ n.id] else [])

def nodeLoop (seen : List String) : List JourneyNode → List String
  | [] => []
  | n :: rest => nodeChecks seen n ++ nodeLoop (n.id :: seen) rest

/-- `validateJourney` from the journeys module. -/
def validateJourney (j : Journey) : List String :=
  journeyChecks j ++ nodeLoop [] j.nodes ++
    (if hasCycles j.nodes then [cycleMsg] else [])

/-- The edge relation the implementation walks: `b` is among the filtered
targets the graph map holds for `a`. -/
def edgeG (nodes : List JourneyNode) (a b : String) : Prop :=
  b ∈ graphGet nodes a

/-- The claim's graph: an edge for every connection's `target_node_id`
(cross-journey `target_journey`-only connections contribute nothing). -/
def specEdge (nodes : List JourneyNode) (a b : String) : Prop :=
  ∃ n ∈ nodes, n.id = a ∧ ∃ c ∈ n.connections, c.target_node_id = some b

end Journeys

namespace Journeys

theorem dfs_zero (nodes : List JourneyNode) (x : String)
    (visited stack : List String) : dfs nodes 0 x visited stack = none :=
  rfl

theorem dfs_succ (nodes : List JourneyNode) (fuel : Nat) (x : String)
    (visited stack : List String) :
    dfs nodes (fuel + 1) x visited stack =
      dfsList nodes fuel (graphGet nodes x) (x :: visited) (x :: stack) :=
  rfl

theorem dfsList_nil (nodes : List JourneyNode) (fuel : Nat)
    (visited stack : List String) :
    dfsList nodes fuel [] visited stack = some (false, visited) :=
  rfl

theorem dfsList_cons (nodes : List JourneyNode) (fuel : Nat) (nb : String)
    (rest : List String) (visited stack : List String) :
    dfsList nodes fuel (nb :: rest) visited stack =
      if nb ∈ visited then
        if nb ∈ stack then some (true, visited)
        else dfsList nodes fuel rest visited stack
      else
        match dfs nodes fuel nb visited stack with
        | none => none
        | some (true, v) => some (true, v)
        | some (false, v) => dfsList nodes fuel rest v stack :=
  rfl

theorem nodup_id_eq : ∀ (l : List JourneyNode),
    (l.map JourneyNode.id).Nodup →
    ∀ m ∈ l, ∀ n ∈ l, m.id = n.id → m = n := by
  intro l h
  induction l with
  | nil => simp
  | cons a t ih =>
    rw [List.map_cons, List.nodup_cons] at h
    obtain ⟨ha, ht⟩ := h
    have ha2 : ∀ x ∈ t, a.id ≠ x.id := by
      intro x hx he
      exact ha (List.mem_map.mpr ⟨x, hx, he.symm⟩)
    intro m hm n hn he
    rcases List.mem_cons.mp hm with rfl | hm2 <;>
      rcases List.mem_cons.mp hn with rfl | hn2
    · rfl
    · exact absurd he (ha2 n hn2)
    · exact absurd he.symm (ha2 m hm2)
    · exact ih ht m hm2 n hn2 he

theorem graphGet_eq_of_mem (nodes : List JourneyNode)
    (hnodup : (nodes.map JourneyNode.id).Nodup)
    (n : JourneyNode) (hn : n ∈ nodes) :
    graphGet nodes n.id = connTargets n := by
  unfold graphGet
  cases hfind : nodes.reverse.find? (fun m => m.id = n.id) with
  | none =>
    have := List.find?_eq_none.mp hfind n (List.mem_reverse.mpr hn)
    simp at this
  | some m =>
    have hm : m ∈ nodes := List.mem_reverse.mp (List.mem_of_find?_eq_some hfind)
    have hid : m.id = n.id := by
      have := List.find?_some hfind
      simpa using this
    rw [nodup_id_eq nodes hnodup m hm n hn hid]

theorem mem_connTargets (n : JourneyNode) (b : String) :
    b ∈ connTargets n ↔
      b ≠ "" ∧ ∃ c ∈ n.connections, c.target_node_id = some b := by
  simp only [connTargets, List.mem_filterMap]
  constructor
  · rintro ⟨c, hc, he⟩
    cases hct : c.target_node_id with
    | none => rw [hct] at he; simp at he
    | some t =>
      rw [hct] at he
      by_cases ht : t = ""
      · simp [ht] at he
      · simp only [if_neg ht, Option.some.injEq] at he
        subst he
        exact ⟨ht, c, hc, hct⟩
  · rintro ⟨hb, c, hc, hct⟩
    exact ⟨c, hc, by rw [hct]; simp [hb]⟩

theorem edgeG_elim (nodes : List JourneyNode) (a b : String)
    (h : edgeG nodes a b) : ∃ n ∈ nodes, n.id = a ∧ b ∈ connTargets n := by
  unfold edgeG graphGet at h
  cases hfind : nodes.reverse.find? (fun m => m.id = a) with
  | none => rw [hfind] at h; simp at h
  | some m =>
    rw [hfind] at h
    refine ⟨m, List.mem_reverse.mp (List.mem_of_find?_eq_some hfind), ?_, h⟩
    have := List.find?_some hfind
    simpa using this

theorem edgeG_intro (nodes : List JourneyNode)
    (hnodup : (nodes.map JourneyNode.id).Nodup)
    (n : JourneyNode) (hn : n ∈ nodes) (b : String) (hb : b ∈ connTargets n) :
    edgeG nodes n.id b := by
  unfold edgeG
  rw [graphGet_eq_of_mem nodes hnodup n hn]
  exact hb

theorem edgeG_to_specEdge (nodes : List JourneyNode) (a b : String)
    (h : edgeG nodes a b) : specEdge nodes a b := by
  obtain ⟨n, hn, hid, hb⟩ := edgeG_elim nodes a b h
  obtain ⟨_, c, hc, hct⟩ := (mem_connTargets n b).mp hb
  exact ⟨n, hn, hid, c, hc, hct⟩

theorem specEdge_src (nodes : List JourneyNode) (a b : String)
    (h : specEdge nodes a b) : ∃ n ∈ nodes, n.id = a := by
  obtain ⟨n, hn, hid, _⟩ := h
  exact ⟨n, hn, hid⟩

theorem specEdge_to_edgeG (nodes : List JourneyNode)
    (hnodup : (nodes.map JourneyNode.id).Nodup)
    (hne : ∀ n ∈ nodes, n.id ≠ "")
    (a b : String) (h : specEdge nodes a b)
    (hb : ∃ n ∈ nodes, n.id = b) : edgeG nodes a b := by
  obtain ⟨n, hn, hid, c, hc, hct⟩ := h
  obtain ⟨m, hm, hmb⟩ := hb
  have hbne : b ≠ "" := hmb ▸ hne m hm
  subst hid
  exact edgeG_intro nodes hnodup n hn b
    ((mem_connTargets n b).mpr ⟨hbne, c, hc, hct⟩)

theorem transGen_spec_src (nodes : List JourneyNode) :
    ∀ a b, Relation.TransGen (specEdge nodes) a b → ∃ n ∈ nodes, n.id = a := by
  intro a b h
  induction h with
  | single h1 => exact specEdge_src nodes _ _ h1
  | tail _ _ ih => exact ih

/-- On a spec-graph cycle every vertex is a node id, so every step is also an
edge of the implementation's adjacency map. -/
theorem transGen_spec_to_edgeG (nodes : List JourneyNode)
    (hnodup : (nodes.map JourneyNode.id).Nodup)
    (hne : ∀ n ∈ nodes, n.id ≠ "")
    (x : String) (h : Relation.TransGen (specEdge nodes) x x) :
    Relation.TransGen (edgeG nodes) x x := by
  have key : ∀ a b, Relation.TransGen (specEdge nodes) a b →
      (∃ n ∈ nodes, n.id = b) → Relation.TransGen (edgeG nodes) a b := by
    intro a b hab
    induction hab with
    | single h1 =>
      intro hb
      exact Relation.TransGen.single (specEdge_to_edgeG nodes hnodup hne _ _ h1 hb)
    | tail _ h2 ih =>
      intro hc
      exact Relation.TransGen.tail (ih (specEdge_src nodes _ _ h2))
        (specEdge_to_edgeG nodes hnodup hne _ _ h2 hc)
  exact key x x h (transGen_spec_src nodes x x h)

theorem transGen_edgeG_to_spec (nodes : List JourneyNode) (x : String)
    (h : Relation.TransGen (edgeG nodes) x x) :
    Relation.TransGen (specEdge nodes) x x :=
  Relation.TransGen.mono (edgeG_to_specEdge nodes) h

theorem cycle_src_node (nodes : List JourneyNode) (x : String)
    (h : Relation.TransGen (edgeG nodes) x x) : ∃ n ∈ nodes, n.id = x := by
  obtain ⟨y, hy, _⟩ := Relation.TransGen.head'_iff.mp h
  obtain ⟨n, hn, hid, _⟩ := edgeG_elim nodes x y hy
  exact ⟨n, hn, hid⟩

/-- Everything the DFS can ever visit: node ids and connection targets. -/
def targetSet (nodes : List JourneyNode) : Finset String :=
  ((nodes.map JourneyNode.id) ++ nodes.flatMap connTargets).toFinset

theorem graphGet_sub_targetSet (nodes : List JourneyNode) (x b : String)
    (h : b ∈ graphGet nodes x) : b ∈ targetSet nodes := by
  obtain ⟨n, hn, _, hb⟩ := edgeG_elim nodes x b h
  unfold targetSet
  rw [List.mem_toFinset, List.mem_append]
  exact Or.inr (List.mem_flatMap.mpr ⟨n, hn, hb⟩)

theorem id_mem_targetSet (nodes : List JourneyNode) (n : JourneyNode)
    (hn : n ∈ nodes) : n.id ∈ targetSet nodes := by
  unfold targetSet
  rw [List.mem_toFinset, List.mem_append]
  exact Or.inl (List.mem_map_of_mem JourneyNode.id hn)

theorem card_targetSet_lt_bigFuel (nodes : List JourneyNode) :
    (targetSet nodes).card < bigFuel nodes :=
  Nat.lt_succ_of_le (List.toFinset_card_le _)

/-- The neighbor loop returns a value whenever the recursive calls it makes
do; the visited set only grows and stays inside the target universe. -/
theorem dfsList_total_of (nodes : List JourneyNode) (fuel : Nat)
    (hdfs : ∀ x visited stack, x ∈ targetSet nodes → x ∉ visited →
      (targetSet nodes \ visited.toFinset).card < fuel →
      ∃ b v, dfs nodes fuel x visited stack = some (b, v) ∧
        (∀ y ∈ visited, y ∈ v) ∧ x ∈ v ∧
        (∀ y ∈ v, y ∈ visited ∨ y ∈ targetSet nodes)) :
    ∀ l visited stack, (∀ nb ∈ l, nb ∈ targetSet nodes) →
      (targetSet nodes \ visited.toFinset).card < fuel →
      ∃ b v, dfsList nodes fuel l visited stack = some (b, v) ∧
        (∀ y ∈ visited, y ∈ v) ∧
        (∀ y ∈ v, y ∈ visited ∨ y ∈ targetSet nodes) := by
  intro l
  induction l with
  | nil =>
    intro visited stack _ _
    exact ⟨false, visited, dfsList_nil nodes fuel visited stack,
      fun y hy => hy, fun y hy => Or.inl hy⟩
  | cons nb rest ih =>
    intro visited stack hsub hcard
    rw [dfsList_cons]
    by_cases hv : nb ∈ visited
    · rw [if_pos hv]
      by_cases hs : nb ∈ stack
      · rw [if_pos hs]
        exact ⟨true, visited, rfl, fun y hy => hy, fun y hy => Or.inl hy⟩
      · rw [if_neg hs]
        exact ih visited stack (fun z hz => hsub z (List.mem_cons_of_mem nb hz))
          hcard
    · rw [if_neg hv]
      obtain ⟨b, v, hd, hvs, hxv, hvsub⟩ :=
        hdfs nb visited stack (hsub nb (List.mem_cons_self nb rest)) hv hcard
      rw [hd]
      cases b with
      | true =>
        exact ⟨true, v, rfl, hvs, hvsub⟩
      | false =>
        have hmono : visited.toFinset ⊆ v.toFinset := by
          intro y hy
          exact List.mem_toFinset.mpr (hvs y (List.mem_toFinset.mp hy))
        have hcard2 : (targetSet nodes \ v.toFinset).card < fuel :=
          lt_of_le_of_lt
            (Finset.card_le_card
              (Finset.sdiff_subset_sdiff (Finset.Subset.refl _) hmono))
            hcard
        obtain ⟨b2, v2, hd2, hvs2, hvsub2⟩ :=
          ih v stack (fun z hz => hsub z (List.mem_cons_of_mem nb hz)) hcard2
        refine ⟨b2, v2, hd2, fun y hy => hvs2 y (hvs y hy), fun y hy => ?_⟩
        rcases hvsub2 y hy with hy2 | hy2
        · exact hvsub y hy2
        · exact Or.inr hy2

/-- With more fuel than unvisited universe elements, `dfs` returns. -/
theorem dfs_total (nodes : List JourneyNode) :
    ∀ fuel x visited stack, x ∈ targetSet nodes → x ∉ visited →
      (targetSet nodes \ visited.toFinset).card < fuel →
      ∃ b v, dfs nodes fuel x visited stack = some (b, v) ∧
        (∀ y ∈ visited, y ∈ v) ∧ x ∈ v ∧
        (∀ y ∈ v, y ∈ visited ∨ y ∈ targetSet nodes) := by
  intro fuel
  induction fuel with
  | zero =>
    intro x visited stack _ _ hcard
    exact absurd hcard (Nat.not_lt_zero _)
  | succ fuel ih =>
    intro x visited stack hxT hxv hcard
    rw [dfs_succ]
    have hx2 : x ∈ targetSet nodes \ visited.toFinset :=
      Finset.mem_sdiff.mpr ⟨hxT, fun h => hxv (List.mem_toFinset.mp h)⟩
    have hcard2 :
        (targetSet nodes \ (x :: visited).toFinset).card < fuel := by
      rw [List.toFinset_cons, Finset.sdiff_insert,
        Finset.card_erase_of_mem hx2]
      have hpos : 0 < (targetSet nodes \ visited.toFinset).card :=
        Finset.card_pos.mpr ⟨x, hx2⟩
      omega
    obtain ⟨b, v, hd, hvs, hvsub⟩ :=
      dfsList_total_of nodes fuel ih (graphGet nodes x) (x :: visited)
        (x :: stack) (fun nb h => graphGet_sub_targetSet nodes x nb h) hcard2
    refine ⟨b, v, hd, fun y hy => hvs y (List.mem_cons_of_mem x hy),
      hvs x (List.mem_cons_self x visited), fun y hy => ?_⟩
    rcases hvsub y hy with hy2 | hy2
    · rcases List.mem_cons.mp hy2 with rfl | hy3
      · exact Or.inr hxT
      · exact Or.inl hy3
    · exact Or.inr hy2

/-- The outer node loop of `hasCycles` always returns a boolean at the
chosen fuel. -/
theorem runNodes_total (nodes : List JourneyNode) (fuel : Nat) :
    ∀ rest visited, (∀ n ∈ rest, n ∈ nodes) →
      (targetSet nodes \ visited.toFinset).card < fuel →
      ∃ b, runNodes nodes fuel rest visited = some b := by
  intro rest
  induction rest with
  | nil => intro visited _ _; exact ⟨false, rfl⟩
  | cons n rest ih =>
    intro visited hsub hcard
    unfold runNodes
    by_cases hv : n.id ∈ visited
    · rw [if_pos hv]
      exact ih visited (fun m hm => hsub m (List.mem_cons_of_mem n hm)) hcard
    · rw [if_neg hv]
      obtain ⟨b, v, hd, hvs, _, _⟩ :=
        dfs_total nodes fuel n.id visited []
          (id_mem_targetSet nodes n (hsub n (List.mem_cons_self n rest)))
          hv hcard
      rw [hd]
      cases b with
      | true => exact ⟨true, rfl⟩
      | false =>
        have hmono : visited.toFinset ⊆ v.toFinset := by
          intro y hy
          exact List.mem_toFinset.mpr (hvs y (List.mem_toFinset.mp hy))
        exact ih v (fun m hm => hsub m (List.mem_cons_of_mem n hm))
          (lt_of_le_of_lt
            (Finset.card_le_card
              (Finset.sdiff_subset_sdiff (Finset.Subset.refl _) hmono))
            hcard)

theorem hasCycles_runs (nodes : List JourneyNode) :
    ∃ b, runNodes nodes (bigFuel nodes) nodes [] = some b ∧
      hasCycles nodes = b := by
  obtain ⟨b, hb⟩ := runNodes_total nodes (bigFuel nodes) nodes []
    (fun n hn => hn)
    (by simpa using card_targetSet_lt_bigFuel nodes)
  exact ⟨b, hb, by rw [hasCycles, hb]; rfl⟩

/-- Every entry of the recursion stack reaches its top along graph edges:
the stack is the current DFS call path, deepest node first. -/
theorem stack_chain_reach (nodes : List JourneyNode) :
    ∀ (stack : List String) (hd : String),
      List.Chain' (fun a b => edgeG nodes b a) (hd :: stack) →
      ∀ a ∈ hd :: stack, Relation.ReflTransGen (edgeG nodes) a hd := by
  intro stack
  induction stack with
  | nil =>
    intro hd _ a ha
    rcases List.mem_cons.mp ha with rfl | ha2
    · exact Relation.ReflTransGen.refl
    · simp at ha2
  | cons b t ih =>
    intro hd hch a ha
    rw [List.chain'_cons] at hch
    rcases List.mem_cons.mp ha with rfl | ha2
    · exact Relation.ReflTransGen.refl
    · exact Relation.ReflTransGen.tail (ih b hch.2 a ha2) hch.1

theorem dfsList_sound_of (nodes : List JourneyNode) (fuel : Nat)
    (hdfs : ∀ x visited stack v,
      List.Chain' (fun a b => edgeG nodes b a) (x :: stack) →
      dfs nodes fuel x visited stack = some (true, v) →
      ∃ z, Relation.TransGen (edgeG nodes) z z) :
    ∀ l visited cur stack0 v, (∀ nb ∈ l, edgeG nodes cur nb) →
      List.Chain' (fun a b => edgeG nodes b a) (cur :: stack0) →
      dfsList nodes fuel l visited (cur :: stack0) = some (true, v) →
      ∃ z, Relation.TransGen (edgeG nodes) z z := by
  intro l
  induction l with
  | nil =>
    intro visited cur stack0 v _ _ hrun
    rw [dfsList_nil] at hrun
    simp at hrun
  | cons nb rest ih =>
    intro visited cur stack0 v hedge hch hrun
    rw [dfsList_cons] at hrun
    by_cases hv : nb ∈ visited
    · rw [if_pos hv] at hrun
      by_cases hs : nb ∈ cur :: stack0
      · refine ⟨nb, Relation.TransGen.tail' ?_ (hedge nb (List.mem_cons_self nb rest))⟩
        exact stack_chain_reach nodes stack0 cur hch nb hs
      · rw [if_neg hs] at hrun
        exact ih visited cur stack0 v
          (fun z hz => hedge z (List.mem_cons_of_mem nb hz)) hch hrun
    · rw [if_neg hv] at hrun
      cases hd : dfs nodes fuel nb visited (cur :: stack0) with
      | none => rw [hd] at hrun; simp at hrun
      | some p =>
        rw [hd] at hrun
        obtain ⟨b1, v1⟩ := p
        cases b1 with
        | true =>
          exact hdfs nb visited (cur :: stack0) v1
            (List.chain'_cons.mpr ⟨hedge nb (List.mem_cons_self nb rest), hch⟩)
            hd
        | false =>
          exact ih v1 cur stack0 v
            (fun z hz => hedge z (List.mem_cons_of_mem nb hz)) hch hrun

/-- A `true` DFS answer exhibits a cycle reachable along real edges. -/
theorem dfs_sound (nodes : List JourneyNode) :
    ∀ fuel x visited stack v,
      List.Chain' (fun a b => edgeG nodes b a) (x :: stack) →
      dfs nodes fuel x visited stack = some (true, v) →
      ∃ z, Relation.TransGen (edgeG nodes) z z := by
  intro fuel
  induction fuel with
  | zero =>
    intro x visited stack v _ hrun
    rw [dfs_zero] at hrun
    simp at hrun
  | succ fuel ih =>
    intro x visited stack v hch hrun
    rw [dfs_succ] at hrun
    exact dfsList_sound_of nodes fuel ih (graphGet nodes x) (x :: visited)
      x stack v (fun nb h => h) hch hrun

theorem runNodes_sound (nodes : List JourneyNode) (fuel : Nat) :
    ∀ rest visited, runNodes nodes fuel rest visited = some true →
      ∃ z, Relation.TransGen (edgeG nodes) z z := by
  intro rest
  induction rest with
  | nil =>
    intro visited hrun
    unfold runNodes at hrun
    simp at hrun
  | cons n rest ih =>
    intro visited hrun
    unfold runNodes at hrun
    by_cases hv : n.id ∈ visited
    · rw [if_pos hv] at hrun
      exact ih visited hrun
    · rw [if_neg hv] at hrun
      cases hd : dfs nodes fuel n.id visited [] with
      | none => rw [hd] at hrun; simp at hrun
      | some p =>
        rw [hd] at hrun
        obtain ⟨b1, v1⟩ := p
        cases b1 with
        | true =>
          exact dfs_sound nodes fuel n.id visited [] v1
            (List.chain'_singleton n.id) hd
        | false => exact ih v1 hrun

/-- The invariant of a finished (popped) DFS region: every visited vertex not
on the current recursion stack has all successors visited and off the stack,
and lies on no cycle. -/
def BlackInv (nodes : List JourneyNode) (V S : List String) : Prop :=
  ∀ z ∈ V, z ∉ S →
    (∀ y, edgeG nodes z y → y ∈ V ∧ y ∉ S) ∧
    ¬ Relation.TransGen (edgeG nodes) z z

theorem black_reach (nodes : List JourneyNode) (V S : List String)
    (h : BlackInv nodes V S) :
    ∀ a b, Relation.ReflTransGen (edgeG nodes) a b →
      a ∈ V → a ∉ S → b ∈ V ∧ b ∉ S := by
  intro a b hab
  induction hab with
  | refl => exact fun hV hS => ⟨hV, hS⟩
  | tail _ hbc ih =>
    intro hV hS
    have hb := ih hV hS
    exact (h _ hb.1 hb.2).1 _ hbc

theorem dfsList_complete_of (nodes : List JourneyNode) (fuel : Nat)
    (hdfs : ∀ x V S v, x ∉ V → (∀ s ∈ S, s ∈ V) → BlackInv nodes V S →
      dfs nodes fuel x V S = some (false, v) →
      (∀ y ∈ V, y ∈ v) ∧ x ∈ v ∧ BlackInv nodes v S) :
    ∀ l V cur stack0 v, (∀ s ∈ cur :: stack0, s ∈ V) →
      BlackInv nodes V (cur :: stack0) →
      dfsList nodes fuel l V (cur :: stack0) = some (false, v) →
      (∀ y ∈ V, y ∈ v) ∧ BlackInv nodes v (cur :: stack0) ∧
      (∀ nb ∈ l, nb ∈ v ∧ nb ∉ cur :: stack0) := by
  intro l
  induction l with
  | nil =>
    intro V cur stack0 v _ hinv hrun
    rw [dfsList_nil] at hrun
    simp only [Option.some.injEq, Prod.mk.injEq] at hrun
    rw [← hrun.2]
    exact ⟨fun y hy => hy, hinv, by simp⟩
  | cons nb rest ih =>
    intro V cur stack0 v hS hinv hrun
    rw [dfsList_cons] at hrun
    by_cases hv : nb ∈ V
    · rw [if_pos hv] at hrun
      by_cases hs : nb ∈ cur :: stack0
      · rw [if_pos hs] at hrun
        simp at hrun
      · rw [if_neg hs] at hrun
        obtain ⟨hsub, hinv2, hrest⟩ := ih V cur stack0 v hS hinv hrun
        refine ⟨hsub, hinv2, fun z hz => ?_⟩
        rcases List.mem_cons.mp hz with rfl | hz2
        · exact ⟨hsub z hv, hs⟩
        · exact hrest z hz2
    · rw [if_neg hv] at hrun
      cases hd : dfs nodes fuel nb V (cur :: stack0) with
      | none => rw [hd] at hrun; simp at hrun
      | some p =>
        rw [hd] at hrun
        obtain ⟨b1, v1⟩ := p
        cases b1 with
        | true => simp at hrun
        | false =>
          obtain ⟨hV1, hnb1, hinv1⟩ := hdfs nb V (cur :: stack0) v1 hv hS hinv hd
          have hS1 : ∀ s ∈ cur :: stack0, s ∈ v1 := fun s hs => hV1 s (hS s hs)
          obtain ⟨hsub2, hinv2, hrest2⟩ := ih v1 cur stack0 v hS1 hinv1 hrun
          have hnbS : nb ∉ cur :: stack0 := fun h => hv (hS nb h)
          refine ⟨fun y hy => hsub2 y (hV1 y hy), hinv2, fun z hz => ?_⟩
          rcases List.mem_cons.mp hz with rfl | hz2
          · exact ⟨hsub2 z hnb1, hnbS⟩
          · exact hrest2 z hz2

/-- A `false` DFS answer extends the black region by the entry vertex:
everything now visited but off the stack is closed and acyclic. -/
theorem dfs_complete (nodes : List JourneyNode) :
    ∀ fuel x V S v, x ∉ V → (∀ s ∈ S, s ∈ V) → BlackInv nodes V S →
      dfs nodes fuel x V S = some (false, v) →
      (∀ y ∈ V, y ∈ v) ∧ x ∈ v ∧ BlackInv nodes v S := by
  intro fuel
  induction fuel with
  | zero =>
    intro x V S v _ _ _ hrun
    rw [dfs_zero] at hrun
    simp at hrun
  | succ fuel ih =>
    intro x V S v hxV hSV hinv hrun
    rw [dfs_succ] at hrun
    have hS2 : ∀ s ∈ x :: S, s ∈ x :: V := by
      intro s hs
      rcases List.mem_cons.mp hs with h | hs2
      · exact List.mem_cons.mpr (Or.inl h)
      · exact List.mem_cons_of_mem x (hSV s hs2)
    have hinv2 : BlackInv nodes (x :: V) (x :: S) := by
      intro z hz hzS
      have hzx : z ≠ x := fun h => hzS (h ▸ List.mem_cons_self x S)
      have hzV : z ∈ V := by
        rcases List.mem_cons.mp hz with h | h
        · exact absurd h hzx
        · exact h
      have hzS2 : z ∉ S := fun h => hzS (List.mem_cons_of_mem x h)
      obtain ⟨hcl, hcy⟩ := hinv z hzV hzS2
      refine ⟨fun y hy => ?_, hcy⟩
      obtain ⟨hyV, hyS⟩ := hcl y hy
      have hyx : y ≠ x := fun h => hxV (h ▸ hyV)
      exact ⟨List.mem_cons_of_mem x hyV,
        fun h => (List.mem_cons.mp h).elim hyx hyS⟩
    obtain ⟨hsub, hinv3, hnbs⟩ :=
      dfsList_complete_of nodes fuel ih (graphGet nodes x) (x :: V) x S v
        hS2 hinv2 hrun
    have hxv : x ∈ v := hsub x (List.mem_cons_self x V)
    refine ⟨fun y hy => hsub y (List.mem_cons_of_mem x hy), hxv, ?_⟩
    intro z hz hzS
    by_cases hzx : z = x
    · subst hzx
      constructor
      · intro y hy
        obtain ⟨hyv, hyxS⟩ := hnbs y hy
        exact ⟨hyv, fun h => hyxS (List.mem_cons_of_mem z h)⟩
      · intro hcyc
        obtain ⟨y, hzy, hyz⟩ := Relation.TransGen.head'_iff.mp hcyc
        obtain ⟨hyv, hyxS⟩ := hnbs y hzy
        have := black_reach nodes v (z :: S) hinv3 y z hyz hyv hyxS
        exact this.2 (List.mem_cons_self z S)
    · have hzxS : z ∉ x :: S :=
        fun h => (List.mem_cons.mp h).elim hzx hzS
      obtain ⟨hcl, hcy⟩ := hinv3 z hz hzxS
      refine ⟨fun y hy => ?_, hcy⟩
      obtain ⟨hyv, hyxS⟩ := hcl y hy
      exact ⟨hyv, fun h => hyxS (List.mem_cons_of_mem x h)⟩

theorem runNodes_complete (nodes : List JourneyNode) (fuel : Nat) :
    ∀ rest V, BlackInv nodes V [] →
      runNodes nodes fuel rest V = some false →
      ∀ x, (x ∈ V ∨ ∃ n ∈ rest, n.id = x) →
        ¬ Relation.TransGen (edgeG nodes) x x := by
  intro rest
  induction rest with
  | nil =>
    intro V hinv _ x hx
    rcases hx with hx | hx
    · exact (hinv x hx (by simp)).2
    · simp at hx
  | cons n rest ih =>
    intro V hinv hrun x hx
    unfold runNodes at hrun
    by_cases hv : n.id ∈ V
    · rw [if_pos hv] at hrun
      refine ih V hinv hrun x ?_
      rcases hx with hx | ⟨m, hm, hmx⟩
      · exact Or.inl hx
      · rcases List.mem_cons.mp hm with rfl | hm2
        · exact Or.inl (hmx ▸ hv)
        · exact Or.inr ⟨m, hm2, hmx⟩
    · rw [if_neg hv] at hrun
      cases hd : dfs nodes fuel n.id V [] with
      | none => rw [hd] at hrun; simp at hrun
      | some p =>
        rw [hd] at hrun
        obtain ⟨b1, v1⟩ := p
        cases b1 with
        | true => simp at hrun
        | false =>
          obtain ⟨hsub, hnid, hinv1⟩ :=
            dfs_complete nodes fuel n.id V [] v1 hv (by simp) hinv hd
          refine ih v1 hinv1 hrun x ?_
          rcases hx with hx | ⟨m, hm, hmx⟩
          · exact Or.inl (hsub x hx)
          · rcases List.mem_cons.mp hm with rfl | hm2
            · exact Or.inl (hmx ▸ hnid)
            · exact Or.inr ⟨m, hm2, hmx⟩

theorem hasCycles_iff_cycle (nodes : List JourneyNode) :
    hasCycles nodes = true ↔ ∃ x, Relation.TransGen (edgeG nodes) x x := by
  obtain ⟨b, hrun, hhc⟩ := hasCycles_runs nodes
  constructor
  · intro h
    rw [hhc] at h
    subst h
    exact runNodes_sound nodes (bigFuel nodes) nodes [] hrun
  · rintro ⟨x, hx⟩
    cases b with
    | true => exact hhc
    | false =>
      exact absurd hx
        (runNodes_complete nodes (bigFuel nodes) nodes []
          (fun z hz => absurd hz (List.not_mem_nil z)) hrun x
          (Or.inr (cycle_src_node nodes x hx)))

theorem cycleMsg_ne_dup (s : String) :
    cycleMsg ≠ "Duplicate node ID: " ++ s := by
  apply string_ne_of_take2
  rw [take2_append "Duplicate node ID: " s (by decide)]
  decide

theorem cycleMsg_notin_journeyChecks (j : Journey) :
    cycleMsg ∉ journeyChecks j := by
  unfold journeyChecks
  intro h
  rcases List.mem_append.mp h with h | h5
  rcases List.mem_append.mp h with h | h4
  rcases List.mem_append.mp h with h | h3
  rcases List.mem_append.mp h with h1 | h2
  · revert h1; split <;> decide
  · revert h2; split <;> decide
  · revert h3; split <;> decide
  · revert h4; split <;> decide
  · revert h5; split <;> decide

theorem cycleMsg_notin_nodeLoop :
    ∀ (l : List JourneyNode) (seen : List String),
      cycleMsg ∉ nodeLoop seen l := by
  intro l
  induction l with
  | nil => intro seen; simp [nodeLoop]
  | cons n rest ih =>
    intro seen hmem
    unfold nodeLoop nodeChecks at hmem
    rcases List.mem_append.mp hmem with h | h
    · rcases List.mem_append.mp h with h1 | h2
      · revert h1; split <;> decide
      · revert h2
        split
        · intro h2
          rcases List.mem_singleton.mp h2 with h3
          exact cycleMsg_ne_dup n.id h3
        · intro h2; exact List.not_mem_nil _ h2
    · exact ih (n.id :: seen) h

theorem cycleMsg_mem_validateJourney (j : Journey) :
    cycleMsg ∈ validateJourney j ↔ hasCycles j.nodes = true := by
  unfold validateJourney
  constructor
  · intro h
    rcases List.mem_append.mp h with h | h
    · rcases List.mem_append.mp h with h | h
      · exact absurd h (cycleMsg_notin_journeyChecks j)
      · exact absurd h (cycleMsg_notin_nodeLoop j.nodes [])
    · revert h
      split
      · intro _; assumption
      · intro h; exact absurd h (List.not_mem_nil _)
  · intro h
    refine List.mem_append.mpr (Or.inr ?_)
    rw [h]
    simp

theorem count_cycleMsg_le_one (j : Journey) :
    (validateJourney j).count cycleMsg ≤ 1 := by
  unfold validateJourney
  rw [List.count_append, List.count_append]
  have h1 : (journeyChecks j).count cycleMsg = 0 :=
    List.count_eq_zero.mpr (cycleMsg_notin_journeyChecks j)
  have h2 : (nodeLoop [] j.nodes).count cycleMsg = 0 :=
    List.count_eq_zero.mpr (cycleMsg_notin_nodeLoop j.nodes [])
  have h3 : (if hasCycles j.nodes then [cycleMsg] else []).count cycleMsg ≤ 1 := by
    split <;> simp
  omega

/-- A connection to a node of the same journey. -/
def connTo (t : String) : NodeConnection :=
  { target_node_id := some t, target_journey := none,
    label := none, condition := none }

def mkNode (i : String) (cs : List NodeConnection) : JourneyNode :=
  { id := i, type := NodeType.stage, key := i, name := i, connections := cs }

/-- Three nodes A→B→C→A. -/
def journeyABC : Journey :=
  { id := "j1", key := "k1", name := "J", projects := ["p"],
    nodes := [mkNode "A" [connTo "B"], mkNode "B" [connTo "C"],
      mkNode "C" [connTo "A"]] }

/-- A cross-journey jump-off connection: no same-journey target. -/
def jumpOff (jid : String) : NodeConnection :=
  { target_node_id := none, target_journey := some jid,
    label := none, condition := none }

/-- The same three nodes without the closing edge; `C` instead carries a
cross-journey jump-off connection, which must contribute no graph edge. -/
def journeyABCopen : Journey :=
  { id := "j1", key := "k1", name := "J", projects := ["p"],
    nodes := [mkNode "A" [connTo "B"], mkNode "B" [connTo "C"],
      mkNode "C" [jumpOff "j2"]] }

/-- C6: for a journey whose node ids are non-empty and pairwise distinct,
`validateJourney` reports the cycle finding exactly when the directed graph
over node ids with an edge per connection `target_node_id` has a cycle
(connections carrying only a cross-journey `target_journey` contribute no
edge, since `specEdge` only reads `target_node_id`); and concretely, three
nodes A→B→C→A yield the finding while the same nodes with the closing edge
replaced by a jump-off connection yield none. -/
theorem validateJourney_cycle_detection (j : Journey)
    (hne : ∀ n ∈ j.nodes, n.id ≠ "")
    (hnodup : (j.nodes.map JourneyNode.id).Nodup) :
    (cycleMsg ∈ validateJourney j ↔
      ∃ x, Relation.TransGen (specEdge j.nodes) x x) ∧
    cycleMsg ∈ validateJourney journeyABC ∧
    cycleMsg ∉ validateJourney journeyABCopen := by
  refine ⟨?_, by decide, by decide⟩
  rw [cycleMsg_mem_validateJourney, hasCycles_iff_cycle]
  constructor
  · rintro ⟨x, hx⟩
    exact ⟨x, transGen_edgeG_to_spec j.nodes x hx⟩
  · rintro ⟨x, hx⟩
    exact ⟨x, transGen_spec_to_edgeG j.nodes hnodup hne x hx⟩

/-- The cycle-detection law applied to the concrete A→B→C→A journey. -/
theorem validateJourney_cycle_detection_witness :
    (∀ n ∈ journeyABC.nodes, n.id ≠ "") ∧
    (journeyABC.nodes.map JourneyNode.id).Nodup ∧
    ((cycleMsg ∈ validateJourney journeyABC ↔
      ∃ x, Relation.TransGen (specEdge journeyABC.nodes) x x) ∧
    cycleMsg ∈ validateJourney journeyABC ∧
    cycleMsg ∉ validateJourney journeyABCopen) :=
  ⟨by decide, by decide,
    validateJourney_cycle_detection journeyABC (by decide) (by decide)⟩

end Journeys
